import Mathlib

/-!
A shallow embedding of `honeybee_radiance/writer.py` (the scene compilation
and deduplication engine) together with proofs about the properties its
specification states.  Pure string production by external collaborators
(`Polygon.to_radiance`, modifier serialisation, the folder naming convention)
is modelled by abstract but injective string constructors; Python object
identity and attribute mutation are modelled by an explicit store of modifier
values; filesystem writes are modelled as traces of (file name, content)
pairs and directory creations as traces of directory names.
-/

namespace HBRad

/-! ## Boundary conditions and the model_to_rad emission loop (writer.py 180-213) -/

/-- Boundary condition of a face, orphaned aperture or orphaned door: either a
`Surface` condition carrying the identifier of the paired object on the other
side of the shared boundary (`boundary_condition_object` in honeybee), or any
other (non-Surface) condition such as Outdoors. -/
inductive BoundaryCondition where
  | surface (boundary_condition_object : String)
  | other
deriving DecidableEq, Repr

/-- The data of one face-like object that the `model_to_rad` emission loop
inspects: its identifier and its boundary condition.  The serialised block for
the object (`face_to_rad` / `aperture_to_rad` / `door_to_rad`) is produced by
the external `Polygon` collaborator and is keyed by the identifier. -/
structure SurfFace where
  identifier : String
  boundary_condition : BoundaryCondition
deriving DecidableEq, Repr

/-- The partner identifier an object would add to the tracked set when
emitted: the `boundary_condition_object` of a `Surface` condition. -/
def bcTarget (f : SurfFace) : Option String :=
  match f.boundary_condition with
  | .surface p => some p
  | .other => none

/-- The emission loop of `model_to_rad` (writer.py lines 184-189 for faces,
and identically 196-201 for orphaned apertures and 208-213 for orphaned
doors): iterate the objects, and for an object with a `Surface` boundary
condition, skip it when its own identifier is already in the tracked set,
otherwise add its partner identifier to the set and emit it.  Objects with a
non-Surface condition are always emitted.  Returns the emitted objects in
iteration order. -/
def emitBoundaryLoop : List SurfFace → List String → List SurfFace
  | [], _ => []
  | f :: rest, seen =>
    match f.boundary_condition with
    | .surface partner =>
      if f.identifier ∈ seen then emitBoundaryLoop rest seen
      else f :: emitBoundaryLoop rest (partner :: seen)
    | .other => f :: emitBoundaryLoop rest seen

/-- The tracked set (here: list) of boundary-partner identifiers after the
loop has processed a list of objects. -/
def seenAfter : List SurfFace → List String → List String
  | [], seen => seen
  | f :: rest, seen =>
    match f.boundary_condition with
    | .surface partner =>
      if f.identifier ∈ seen then seenAfter rest seen
      else seenAfter rest (partner :: seen)
    | .other => seenAfter rest seen

/-- The geometry collections of a honeybee model that `model_to_rad` iterates
with boundary-partner tracking: faces, orphaned apertures and orphaned
doors (each section keeps its own tracked set). -/
structure RadModelGeo where
  faces : List SurfFace
  orphaned_apertures : List SurfFace
  orphaned_doors : List SurfFace
deriving DecidableEq, Repr

/-- The three sections of envelope geometry blocks emitted by `model_to_rad`:
the faces section, the orphaned-apertures section and the orphaned-doors
section, each produced by the emission loop with its own initially empty
tracked set (`interior_faces`, `interior_aps`, `interior_drs`). -/
def modelToRadEmitted (m : RadModelGeo) : List SurfFace × List SurfFace × List SurfFace :=
  (emitBoundaryLoop m.faces [], emitBoundaryLoop m.orphaned_apertures [],
    emitBoundaryLoop m.orphaned_doors [])

theorem emitBoundaryLoop_append (l₁ l₂ : List SurfFace) (s : List String) :
    emitBoundaryLoop (l₁ ++ l₂) s =
      emitBoundaryLoop l₁ s ++ emitBoundaryLoop l₂ (seenAfter l₁ s) := by
  induction l₁ generalizing s with
  | nil => simp [emitBoundaryLoop, seenAfter]
  | cons f rest ih =>
    cases h : f.boundary_condition with
    | surface p =>
      by_cases hm : f.identifier ∈ s <;>
        simp [emitBoundaryLoop, seenAfter, h, hm, ih]
    | other => simp [emitBoundaryLoop, seenAfter, h, ih]

theorem mem_seenAfter_of_mem {x : String} (l : List SurfFace) (s : List String)
    (hx : x ∈ s) : x ∈ seenAfter l s := by
  induction l generalizing s with
  | nil => simpa [seenAfter]
  | cons f rest ih =>
    cases h : f.boundary_condition with
    | surface p =>
      by_cases hm : f.identifier ∈ s
      · simpa [seenAfter, h, hm] using ih s hx
      · simpa [seenAfter, h, hm] using ih (p :: s) (List.mem_cons_of_mem _ hx)
    | other => simpa [seenAfter, h] using ih s hx

theorem mem_seenAfter_src {x : String} (l : List SurfFace) (s : List String)
    (hx : x ∈ seenAfter l s) : x ∈ s ∨ ∃ f ∈ l, bcTarget f = some x := by
  induction l generalizing s with
  | nil => exact Or.inl (by simpa [seenAfter] using hx)
  | cons f rest ih =>
    cases h : f.boundary_condition with
    | surface p =>
      by_cases hm : f.identifier ∈ s
      · rcases ih s (by simpa [seenAfter, h, hm] using hx) with h1 | ⟨g, hg, hgt⟩
        · exact Or.inl h1
        · exact Or.inr ⟨g, List.mem_cons_of_mem _ hg, hgt⟩
      · rcases ih (p :: s) (by simpa [seenAfter, h, hm] using hx) with h1 | ⟨g, hg, hgt⟩
        · rcases List.mem_cons.1 h1 with h2 | h2
          · exact Or.inr ⟨f, List.mem_cons_self f rest, by simp [bcTarget, h, h2]⟩
          · exact Or.inl h2
        · exact Or.inr ⟨g, List.mem_cons_of_mem _ hg, hgt⟩
    | other =>
      rcases ih s (by simpa [seenAfter, h] using hx) with h1 | ⟨g, hg, hgt⟩
      · exact Or.inl h1
      · exact Or.inr ⟨g, List.mem_cons_of_mem _ hg, hgt⟩

theorem emitBoundaryLoop_subset (l : List SurfFace) (s : List String) :
    ∀ f ∈ emitBoundaryLoop l s, f ∈ l := by
  induction l generalizing s with
  | nil => simp [emitBoundaryLoop]
  | cons f rest ih =>
    intro g hg
    cases h : f.boundary_condition with
    | surface p =>
      by_cases hm : f.identifier ∈ s
      · simp only [emitBoundaryLoop, h, hm, if_true] at hg
        exact List.mem_cons_of_mem _ (ih s g hg)
      · simp only [emitBoundaryLoop, h, hm, if_false] at hg
        rcases List.mem_cons.1 hg with h1 | h1
        · exact h1 ▸ List.mem_cons_self f rest
        · exact List.mem_cons_of_mem _ (ih (p :: s) g h1)
    | other =>
      simp only [emitBoundaryLoop, h] at hg
      rcases List.mem_cons.1 hg with h1 | h1
      · exact h1 ▸ List.mem_cons_self f rest
      · exact List.mem_cons_of_mem _ (ih s g h1)

/-- The property the claim states for one section of `model_to_rad` output:
whenever the section's object list splits as `l₁ ++ fi :: l₂ ++ fj :: l₃`
where `fi` and `fj` are mutual boundary partners under `Surface` boundary
conditions, identifiers in the section are unique, and no object before `fi`
names `fi` as its partner (well-formed pairing), then the emitted blocks
contain the first of the pair and not the second. -/
def BoundaryPairOnce (objs : List SurfFace) : Prop :=
  ∀ l₁ l₂ l₃ : List SurfFace, ∀ fi fj : SurfFace,
    objs = l₁ ++ (fi :: (l₂ ++ (fj :: l₃))) →
    fi.boundary_condition = .surface fj.identifier →
    fj.boundary_condition = .surface fi.identifier →
    (objs.map SurfFace.identifier).Nodup →
    (∀ f ∈ l₁, bcTarget f ≠ some fi.identifier) →
    fi.identifier ∈ (emitBoundaryLoop objs []).map SurfFace.identifier ∧
      fj.identifier ∉ (emitBoundaryLoop objs []).map SurfFace.identifier

theorem boundaryPairOnce_holds (objs : List SurfFace) : BoundaryPairOnce objs := by
  intro l₁ l₂ l₃ fi fj hsplit hbi hbj hnodup hwf
  subst hsplit
  -- fi's identifier is never added to the tracked set while processing l₁
  have hfi_not_seen : fi.identifier ∉ seenAfter l₁ [] := by
    intro hmem
    rcases mem_seenAfter_src l₁ [] hmem with h | ⟨f, hf, hft⟩
    · simp at h
    · exact hwf f hf hft
  -- fj's identifier occurs nowhere else in the object list
  have hno : (List.map SurfFace.identifier l₁ ++ fi.identifier ::
      (List.map SurfFace.identifier l₂ ++ fj.identifier ::
        List.map SurfFace.identifier l₃)).Nodup := by
    simpa using hnodup
  rcases List.nodup_append.1 hno with ⟨hnoA, hnoB, hdisjA⟩
  rcases List.nodup_cons.1 hnoB with ⟨hfi_notin, hnoC⟩
  rcases List.nodup_append.1 hnoC with ⟨hnoL₂, hnoD, hdisjC⟩
  rcases List.nodup_cons.1 hnoD with ⟨hfj_notin₃, hnoL₃⟩
  have hA : fj.identifier ∉ List.map SurfFace.identifier l₁ := by
    intro hmem
    exact hdisjA hmem (by simp)
  have hB : fj.identifier ≠ fi.identifier := by
    intro h
    exact hfi_notin (by simp [← h])
  have hC : fj.identifier ∉ List.map SurfFace.identifier l₂ := by
    intro hmem
    exact hdisjC hmem (by simp)
  -- decompose the emitted list along the split
  rw [emitBoundaryLoop_append l₁ (fi :: (l₂ ++ (fj :: l₃))) []]
  have hfi_step :
      emitBoundaryLoop (fi :: (l₂ ++ (fj :: l₃))) (seenAfter l₁ []) =
        fi :: emitBoundaryLoop (l₂ ++ (fj :: l₃))
          (fj.identifier :: seenAfter l₁ []) := by
    simp [emitBoundaryLoop, hbi, hfi_not_seen]
  rw [hfi_step, emitBoundaryLoop_append l₂ (fj :: l₃)]
  have hfj_seen : fj.identifier ∈ seenAfter l₂ (fj.identifier :: seenAfter l₁ []) :=
    mem_seenAfter_of_mem l₂ _ (List.mem_cons_self _ _)
  have hfj_step :
      emitBoundaryLoop (fj :: l₃) (seenAfter l₂ (fj.identifier :: seenAfter l₁ [])) =
        emitBoundaryLoop l₃ (seenAfter l₂ (fj.identifier :: seenAfter l₁ [])) := by
    simp [emitBoundaryLoop, hbj, hfj_seen]
  rw [hfj_step]
  constructor
  · simp
  · -- fj's identifier is not the identifier of any emitted object
    intro hmem
    rcases List.mem_map.1 hmem with ⟨g, hg, hgid⟩
    simp only [List.mem_append, List.mem_cons] at hg
    rcases hg with hg1 | hg2 | hg3 | hg4
    · exact hA (List.mem_map.2 ⟨g, emitBoundaryLoop_subset l₁ [] g hg1, hgid⟩)
    · exact hB (by rw [hg2] at hgid; exact hgid.symm)
    · exact hC (List.mem_map.2 ⟨g, emitBoundaryLoop_subset l₂ _ g hg3, hgid⟩)
    · exact hfj_notin₃ (List.mem_map.2 ⟨g, emitBoundaryLoop_subset l₃ _ g hg4, hgid⟩)

/-- C1: for every model, in the geometry emitted by `model_to_rad`, any two
faces (or orphaned apertures, or orphaned doors) that are boundary partners
under a `Surface` boundary condition contribute a serialized block for exactly
one of the pair: the one iterated first is emitted, the second is skipped via
the tracked set of already-emitted boundary-partner identifiers. -/
theorem model_to_rad_boundary_pair_once (m : RadModelGeo) :
    BoundaryPairOnce m.faces ∧ BoundaryPairOnce m.orphaned_apertures ∧
      BoundaryPairOnce m.orphaned_doors :=
  ⟨boundaryPairOnce_holds _, boundaryPairOnce_holds _, boundaryPairOnce_holds _⟩

/-- Witness for C1: a concrete model with two mutually paired faces; the first
face of the pair is emitted and the second is skipped. -/
theorem model_to_rad_boundary_pair_once_witness :
    let fi : SurfFace := ⟨"wall_A", .surface "wall_A_boundary"⟩
    let fj : SurfFace := ⟨"wall_A_boundary", .surface "wall_A"⟩
    let m : RadModelGeo := ⟨[fi, fj], [], []⟩
    "wall_A" ∈ (emitBoundaryLoop m.faces []).map SurfFace.identifier ∧
      "wall_A_boundary" ∉ (emitBoundaryLoop m.faces []).map SurfFace.identifier := by
  intro fi fj m
  have h := (model_to_rad_boundary_pair_once m).1 [] [] [] fi fj rfl rfl rfl
    (by decide) (by intro f hf; simp at hf)
  simpa [fi, fj, m] using h

/-! ## Modifiers, Python object identity, and the modifier store

Honeybee-radiance modifiers are mutable Python objects compared either by
object identity (`is`) or by structural equality (`==` on the defining
fields).  We model them by an explicit store: a reference is an index into a
heap of modifier values, `duplicate` allocates a fresh reference with a copied
value, and attribute assignment mutates the heap at one reference. -/

/-- The value state of one modifier object: its `identifier`, whether it is a
BSDF material, its `bsdf_file` path (meaningful for BSDF materials only),
whether it is opaque (`opaque_flag` models the modifier's is-opaque property),
and all remaining defining parameters abstracted as one string.  Two modifiers
are `==`-equal exactly when their values coincide. -/
structure ModVal where
  identifier : String
  is_bsdf : Bool
  bsdf_file : String
  opaque_flag : Bool
  params : String
deriving DecidableEq, Repr

/-- A reference to a modifier object (Python object identity). -/
structure Ref where
  r : Nat
deriving DecidableEq, Repr

/-- The heap of modifier objects: `mem` gives the value stored at every
reference index, and indices below `next` are the live objects of the caller's
model; allocation hands out `next` and bumps it. -/
structure Store where
  next : Nat
  mem : Nat → ModVal

/-- Allocate a fresh modifier object holding value `v`. -/
def Store.alloc (σ : Store) (v : ModVal) : Ref × Store :=
  (⟨σ.next⟩, ⟨σ.next + 1, fun i => if i = σ.next then v else σ.mem i⟩)

/-- Attribute assignment `x.identifier = s`. -/
def Store.setIdentifier (σ : Store) (x : Ref) (s : String) : Store :=
  ⟨σ.next, fun i => if i = x.r then { σ.mem i with identifier := s } else σ.mem i⟩

/-- Attribute assignment `x._bsdf_file = s` (the hidden BSDF path field). -/
def Store.setBsdfFile (σ : Store) (x : Ref) (s : String) : Store :=
  ⟨σ.next, fun i => if i = x.r then { σ.mem i with bsdf_file := s } else σ.mem i⟩

/-- The `duplicate()` method: allocate a fresh object copying x's value. -/
def Store.duplicate (σ : Store) (x : Ref) : Ref × Store :=
  σ.alloc (σ.mem x.r)

theorem Store.alloc_next (σ : Store) (v : ModVal) : (σ.alloc v).2.next = σ.next + 1 := rfl

theorem Store.alloc_mem_of_lt (σ : Store) (v : ModVal) {i : Nat} (h : i < σ.next) :
    (σ.alloc v).2.mem i = σ.mem i := by
  simp only [Store.alloc]
  exact if_neg (Nat.ne_of_lt h)

theorem Store.setIdentifier_next (σ : Store) (x : Ref) (s : String) :
    (σ.setIdentifier x s).next = σ.next := rfl

theorem Store.setIdentifier_mem_of_ne (σ : Store) (x : Ref) (s : String) {i : Nat}
    (h : i ≠ x.r) : (σ.setIdentifier x s).mem i = σ.mem i := by
  simp [Store.setIdentifier, h]

theorem Store.setBsdfFile_next (σ : Store) (x : Ref) (s : String) :
    (σ.setBsdfFile x s).next = σ.next := rfl

theorem Store.setBsdfFile_mem_of_ne (σ : Store) (x : Ref) (s : String) {i : Nat}
    (h : i ≠ x.r) : (σ.setBsdfFile x s).mem i = σ.mem i := by
  simp [Store.setBsdfFile, h]

/-- One geometry object as the writer sees it: identifier, vertex data
(abstract), `punched_vertices` for faces with openings, and references to its
visible and blacked-out modifiers (`properties.radiance.modifier` and
`properties.radiance.modifier_blk`). -/
structure GeoObj where
  identifier : String
  vertices : List Int
  punched_vertices : List Int
  modifier : Ref
  modifier_blk : Ref
deriving DecidableEq, Repr

/-- writer.py `_instance_in_array`: scan the array for a value that `is` the
given object instance (reference equality, not `==`). -/
def instanceInArray (object_instance : Ref) : List Ref → Bool
  | [] => false
  | val :: rest =>
    if val = object_instance then true else instanceInArray object_instance rest

/-- The accumulation loop of writer.py `_unique_modifiers`: append each
object's modifier unless an identical reference is already in the list. -/
def uniqueModifiersLoop : List GeoObj → List Ref → List Ref
  | [], modifiers => modifiers
  | obj :: rest, modifiers =>
    let mod := obj.modifier
    if instanceInArray mod modifiers then uniqueModifiersLoop rest modifiers
    else uniqueModifiersLoop rest (modifiers ++ [mod])

/-- Value-dedup keeping the first occurrence: drop every element whose stored
value already occurred earlier in the list.  This is the canonical *content*
of a CPython set built from `xs` (adding a value-equal element to a set keeps
the element already present, so the first reference per value survives), read
back in one particular order — first-insertion order.  CPython's actual
iteration order is hash-dependent and implementation defined, so the faithful
model of `list(set(xs))` is `IsPySet` below: any permutation of this list. -/
def insertionDedupAux (σ : Store) : List Ref → List ModVal → List Ref
  | [], _ => []
  | x :: xs, seenVals =>
    if σ.mem x.r ∈ seenVals then insertionDedupAux σ xs seenVals
    else x :: insertionDedupAux σ xs (σ.mem x.r :: seenVals)

/-- First-occurrence value-dedup of a whole list (see `insertionDedupAux`). -/
def insertionDedup (σ : Store) (xs : List Ref) : List Ref :=
  insertionDedupAux σ xs []

/-- A function is an admissible outcome of CPython `list(set(xs))` over these
value-hashed modifier objects exactly when it returns the set's content — the
first reference inserted for each distinct value — in some implementation
defined order, i.e. a permutation of `insertionDedup`. -/
def IsPySet (σ : Store) (f : List Ref → List Ref) : Prop :=
  ∀ xs : List Ref, (f xs).Perm (insertionDedup σ xs)

/-- writer.py `_unique_modifiers`, parametric over the implementation-defined
iteration order of the final `list(set(modifiers))` (writer.py 560): collect
each object's modifier with the `_instance_in_array` identity fast path, then
pass the collection through the set, read back in order `f`. -/
def uniqueModifiersWith (f : List Ref → List Ref) (geometry_objects : List GeoObj) : List Ref :=
  f (uniqueModifiersLoop geometry_objects [])

/-- writer.py `_unique_modifiers` at one fixed admissible set order
(first-insertion), used by the downstream pipeline (`_collect_modifiers` and
the static writers), whose conclusions are insensitive to this order; the
order-faithful parametric form is `uniqueModifiersWith`. -/
def uniqueModifiers (σ : Store) (geometry_objects : List GeoObj) : List Ref :=
  insertionDedup σ (uniqueModifiersLoop geometry_objects [])

/-- Stated from the specification's words, for comparison with the source's
`_unique_modifiers`: the modifiers referenced by the geometry objects, in
first-seen order, with value-equal duplicates folded away. -/
def uniqueModifiersSpec (σ : Store) (geometry_objects : List GeoObj) : List Ref :=
  insertionDedup σ (geometry_objects.map (·.modifier))

theorem instanceInArray_eq_mem (x : Ref) (l : List Ref) :
    instanceInArray x l = true ↔ x ∈ l := by
  induction l with
  | nil => simp [instanceInArray]
  | cons y rest ih =>
    by_cases h : y = x
    · simp [instanceInArray, h]
    · simp only [instanceInArray, if_neg h, ih, List.mem_cons]
      constructor
      · exact Or.inr
      · rintro (h1 | h1)
        · exact absurd h1.symm h
        · exact h1

theorem insertionDedupAux_dup_drop (σ : Store) (pre l : List Ref) (x : Ref) :
    ∀ seen : List ModVal,
      (σ.mem x.r ∈ seen ∨ ∃ z ∈ pre, σ.mem z.r = σ.mem x.r) →
      insertionDedupAux σ (pre ++ x :: l) seen = insertionDedupAux σ (pre ++ l) seen := by
  induction pre with
  | nil =>
    intro seen h
    rcases h with h | ⟨z, hz, _⟩
    · simp [insertionDedupAux, h]
    · simp at hz
  | cons y pre' ih =>
    intro seen h
    by_cases hy : σ.mem y.r ∈ seen
    · simp only [List.cons_append, insertionDedupAux, if_pos hy]
      refine ih seen ?_
      rcases h with h | ⟨z, hz, hzx⟩
      · exact Or.inl h
      · rcases List.mem_cons.1 hz with h1 | h1
        · exact Or.inl (by rw [← hzx, h1]; exact hy)
        · exact Or.inr ⟨z, h1, hzx⟩
    · simp only [List.cons_append, insertionDedupAux, if_neg hy, List.append_eq]
      rw [ih (σ.mem y.r :: seen) ?_]
      rcases h with h | ⟨z, hz, hzx⟩
      · exact Or.inl (List.mem_cons_of_mem _ h)
      · rcases List.mem_cons.1 hz with h1 | h1
        · exact Or.inl (by rw [← hzx, h1]; exact List.mem_cons_self _ _)
        · exact Or.inr ⟨z, h1, hzx⟩

theorem uniqueModifiersLoop_dedup (σ : Store) (objs : List GeoObj) :
    ∀ acc : List Ref,
      insertionDedup σ (uniqueModifiersLoop objs acc) =
        insertionDedup σ (acc ++ objs.map (·.modifier)) := by
  induction objs with
  | nil => intro acc; simp [uniqueModifiersLoop]
  | cons obj rest ih =>
    intro acc
    by_cases h : instanceInArray obj.modifier acc = true
    · have hmem : obj.modifier ∈ acc := (instanceInArray_eq_mem _ _).1 h
      simp only [uniqueModifiersLoop, h, if_true, List.map_cons]
      rw [ih acc, insertionDedup, insertionDedup,
        insertionDedupAux_dup_drop σ acc (rest.map (·.modifier)) obj.modifier []
          (Or.inr ⟨obj.modifier, hmem, rfl⟩)]
    · simp only [uniqueModifiersLoop, List.map_cons]
      rw [if_neg h, ih (acc ++ [obj.modifier])]
      simp

theorem isPySet_insertionDedup (σ : Store) : IsPySet σ (insertionDedup σ) :=
  fun _ => List.Perm.refl _

theorem isPySet_reverse (σ : Store) (f : List Ref → List Ref) (hf : IsPySet σ f) :
    IsPySet σ (fun xs => (f xs).reverse) :=
  fun xs => ((f xs).reverse_perm).trans (hf xs)

/-- A store holding two distinct modifier values at references 0 and 1. -/
def c4Store : Store :=
  ⟨2, fun i => if i = 0 then ⟨"modA", false, "", true, ""⟩
      else ⟨"modB", false, "", true, ""⟩⟩

/-- Two geometry objects referencing those two modifiers in order. -/
def c4Objs : List GeoObj :=
  [⟨"faceA", [], [], ⟨0⟩, ⟨0⟩⟩, ⟨"faceB", [], [], ⟨1⟩, ⟨1⟩⟩]

/-- Counterexample to C4 as stated: `_unique_modifiers` ends with
`list(set(modifiers))` (writer.py 560), whose iteration order is hash-dependent
and implementation defined — not first-seen order.  An admissible set order
(here: reversed insertion) returns the two referenced modifiers in the
opposite of first-seen order. -/
theorem unique_modifiers_not_first_seen_order :
    ∃ f, IsPySet c4Store f ∧
      uniqueModifiersWith f c4Objs ≠ uniqueModifiersSpec c4Store c4Objs := by
  refine ⟨fun xs => (insertionDedup c4Store xs).reverse,
    isPySet_reverse c4Store _ (isPySet_insertionDedup c4Store), ?_⟩
  decide

/-- C4: for every admissible iteration order of the final
`list(set(modifiers))`, writer.py `_unique_modifiers` returns a permutation of
the first-seen value-dedup of the modifiers referenced by the geometry
objects: each distinct modifier value appears exactly once, represented by the
first reference carrying it; the `_instance_in_array` identity fast path folds
into the value dedup, and only the output order is implementation defined. -/
theorem unique_modifiers_value_dedup (σ : Store) (f : List Ref → List Ref)
    (hf : IsPySet σ f) (geometry_objects : List GeoObj) :
    (uniqueModifiersWith f geometry_objects).Perm
      (uniqueModifiersSpec σ geometry_objects) := by
  have h := hf (uniqueModifiersLoop geometry_objects [])
  have heq : insertionDedup σ (uniqueModifiersLoop geometry_objects []) =
      uniqueModifiersSpec σ geometry_objects := by
    rw [uniqueModifiersLoop_dedup σ geometry_objects []]
    rfl
  rw [heq] at h
  exact h

/-- Witness for C4: the amended theorem at a non-trivial admissible set order
(reversed insertion) on a concrete store and object list. -/
theorem unique_modifiers_value_dedup_witness :
    (uniqueModifiersWith (fun xs => (insertionDedup c4Store xs).reverse) c4Objs).Perm
      (uniqueModifiersSpec c4Store c4Objs) :=
  unique_modifiers_value_dedup c4Store (fun xs => (insertionDedup c4Store xs).reverse)
    (isPySet_reverse c4Store _ (isPySet_insertionDedup c4Store)) c4Objs

/-! ## Unique modifier / modifier_blk combinations (writer.py 563-602) -/

/-- Association-list lookup modelling Python dict access by key (Python dicts
keep insertion order; keys in the dicts built here are unique). -/
def dictLookup {α : Type} : List (String × α) → String → Option α
  | [], _ => none
  | (k, v) :: rest, key => if k = key then some v else dictLookup rest key

/-- The canonical black modifier from `honeybee_radiance.lib.modifiers`
(external collaborator): an opaque black plastic. -/
def blackVal : ModVal :=
  { identifier := "black", is_bsdf := false, bsdf_file := "", opaque_flag := true,
    params := "plastic 3 0.0 0.0 0.0" }

/-- The composite key `_unique_modifier_blk_combinations` builds for a
geometry object from a store: visible modifier identifier, underscore, blk
modifier identifier. -/
def combKey (σ : Store) (obj : GeoObj) : String :=
  (σ.mem obj.modifier.r).identifier ++ "_" ++ (σ.mem obj.modifier_blk.r).identifier

/-- The KeyError branch of `_unique_modifier_blk_combinations`: duplicate the
object's visible and blk modifiers and rename both duplicates to the composite
key.  Returns the two fresh references and the updated store. -/
def clonePair (σ : Store) (obj : GeoObj) (comb_name : String) : (Ref × Ref) × Store :=
  let new_mod := (σ.duplicate obj.modifier).1
  let σ1 := (σ.duplicate obj.modifier).2
  let σ2 := σ1.setIdentifier new_mod comb_name
  let new_mod_blk := (σ2.duplicate obj.modifier_blk).1
  let σ3 := (σ2.duplicate obj.modifier_blk).2
  ((new_mod, new_mod_blk), σ3.setIdentifier new_mod_blk comb_name)

theorem clonePair_ref_fst (σ : Store) (obj : GeoObj) (k : String) :
    (clonePair σ obj k).1.1 = ⟨σ.next⟩ := rfl

theorem clonePair_ref_snd (σ : Store) (obj : GeoObj) (k : String) :
    (clonePair σ obj k).1.2 = ⟨σ.next + 1⟩ := rfl

theorem clonePair_next (σ : Store) (obj : GeoObj) (k : String) :
    (clonePair σ obj k).2.next = σ.next + 2 := rfl

theorem clonePair_mem_of_lt (σ : Store) (obj : GeoObj) (k : String) {i : Nat}
    (hi : i < σ.next) : (clonePair σ obj k).2.mem i = σ.mem i := by
  have h1 : i ≠ σ.next := Nat.ne_of_lt hi
  have h2 : i ≠ σ.next + 1 := by omega
  simp [clonePair, Store.duplicate, Store.alloc, Store.setIdentifier, h1, h2]

theorem clonePair_mem_fst (σ : Store) (obj : GeoObj) (k : String) :
    (clonePair σ obj k).2.mem σ.next =
      { σ.mem obj.modifier.r with identifier := k } := by
  simp [clonePair, Store.duplicate, Store.alloc, Store.setIdentifier]

theorem clonePair_mem_snd (σ : Store) (obj : GeoObj) (k : String)
    (hb : obj.modifier_blk.r < σ.next) :
    (clonePair σ obj k).2.mem (σ.next + 1) =
      { σ.mem obj.modifier_blk.r with identifier := k } := by
  have h1 : obj.modifier_blk.r ≠ σ.next := Nat.ne_of_lt hb
  simp [clonePair, Store.duplicate, Store.alloc, Store.setIdentifier, h1]

/-- The loop of writer.py `_unique_modifier_blk_combinations`: for each
object, record its composite key in `modifier_names`; on the first occurrence
of a key, duplicate the object's visible and blk modifiers, rename both
duplicates to the key (`clonePair`), and store the pair in `modifier_combs`. -/
def combLoop : List GeoObj → List (String × Ref × Ref) → List String → Store →
    List (String × Ref × Ref) × List String × Store
  | [], modifier_combs, modifier_names, σ => (modifier_combs, modifier_names, σ)
  | obj :: rest, modifier_combs, modifier_names, σ =>
    let comb_name := combKey σ obj
    let modifier_names' := modifier_names ++ [comb_name]
    match dictLookup modifier_combs comb_name with
    | some _ => combLoop rest modifier_combs modifier_names' σ
    | none =>
      let p := clonePair σ obj comb_name
      combLoop rest (modifier_combs ++ [(comb_name, p.1.1, p.1.2)])
        modifier_names' p.2

/-- writer.py `_unique_modifier_blk_combinations`. -/
def uniqueModifierBlkCombinations (σ : Store) (geometry_objects : List GeoObj) :
    List (String × Ref × Ref) × List String × Store :=
  combLoop geometry_objects [] [] σ

theorem combLoop_next_le (objs : List GeoObj) :
    ∀ (combs : List (String × Ref × Ref)) (names : List String) (σ : Store),
      σ.next ≤ (combLoop objs combs names σ).2.2.next := by
  induction objs with
  | nil => intro combs names σ; simp [combLoop]
  | cons obj rest ih =>
    intro combs names σ
    simp only [combLoop]
    cases dictLookup combs (combKey σ obj) with
    | some p => exact ih _ _ σ
    | none =>
      refine le_trans ?_ (ih _ _ _)
      rw [clonePair_next]
      omega

theorem combLoop_mem_of_lt (objs : List GeoObj) :
    ∀ (combs : List (String × Ref × Ref)) (names : List String) (σ : Store)
      (i : Nat), i < σ.next →
      (combLoop objs combs names σ).2.2.mem i = σ.mem i := by
  induction objs with
  | nil => intro combs names σ i hi; simp [combLoop]
  | cons obj rest ih =>
    intro combs names σ i hi
    simp only [combLoop]
    cases dictLookup combs (combKey σ obj) with
    | some p => exact ih _ _ σ i hi
    | none =>
      rw [ih _ _ _ i (by rw [clonePair_next]; omega)]
      exact clonePair_mem_of_lt σ obj _ hi

theorem dictLookup_eq_none_iff {α : Type} (d : List (String × α)) (k : String) :
    dictLookup d k = none ↔ k ∉ d.map Prod.fst := by
  induction d with
  | nil => simp [dictLookup]
  | cons e rest ih =>
    obtain ⟨ek, ev⟩ := e
    by_cases h : ek = k
    · simp [dictLookup, h]
    · simp [dictLookup, h, ih, Ne.symm h]

/-- First-occurrence deduplication of a key sequence against an already-seen
set, used to state which keys `_unique_modifier_blk_combinations` creates. -/
def dedupKeysAux : List String → List String → List String
  | [], _ => []
  | x :: xs, seen =>
    if x ∈ seen then dedupKeysAux xs seen else x :: dedupKeysAux xs (x :: seen)

theorem dedupKeysAux_congr (l : List String) :
    ∀ s s' : List String, (∀ x, x ∈ s ↔ x ∈ s') →
      dedupKeysAux l s = dedupKeysAux l s' := by
  induction l with
  | nil => intro s s' _; rfl
  | cons x xs ih =>
    intro s s' h
    by_cases hx : x ∈ s
    · rw [dedupKeysAux, dedupKeysAux, if_pos hx, if_pos ((h x).1 hx)]
      exact ih s s' h
    · rw [dedupKeysAux, dedupKeysAux, if_neg hx, if_neg (fun hc => hx ((h x).2 hc))]
      refine congrArg _ (ih _ _ fun y => ?_)
      simp [h y]

theorem dedupKeysAux_mem (l : List String) :
    ∀ (s : List String) (x : String), x ∈ dedupKeysAux l s ↔ x ∈ l ∧ x ∉ s := by
  induction l with
  | nil => simp [dedupKeysAux]
  | cons y xs ih =>
    intro s x
    by_cases hy : y ∈ s
    · rw [dedupKeysAux, if_pos hy, ih]
      constructor
      · rintro ⟨h1, h2⟩; exact ⟨List.mem_cons_of_mem _ h1, h2⟩
      · rintro ⟨h1, h2⟩
        rcases List.mem_cons.1 h1 with h3 | h3
        · exact absurd (h3 ▸ hy) h2
        · exact ⟨h3, h2⟩
    · rw [dedupKeysAux, if_neg hy, List.mem_cons, ih, List.mem_cons, List.mem_cons]
      constructor
      · rintro (rfl | ⟨h1, h2⟩)
        · exact ⟨Or.inl rfl, hy⟩
        · exact ⟨Or.inr h1, fun hc => h2 (Or.inr hc)⟩
      · rintro ⟨h1 | h1, h2⟩
        · exact Or.inl h1
        · by_cases hxy : x = y
          · exact Or.inl hxy
          · refine Or.inr ⟨h1, ?_⟩
            rintro (hc | hc)
            · exact hxy hc
            · exact h2 hc

theorem dedupKeysAux_nodup (l : List String) :
    ∀ s : List String, (dedupKeysAux l s).Nodup := by
  induction l with
  | nil => intro s; simp [dedupKeysAux]
  | cons x xs ih =>
    intro s
    by_cases hx : x ∈ s
    · rw [dedupKeysAux, if_pos hx]; exact ih s
    · rw [dedupKeysAux, if_neg hx]
      refine List.nodup_cons.2 ⟨?_, ih _⟩
      intro hc
      exact ((dedupKeysAux_mem xs _ x).1 hc).2 (List.mem_cons_self _ _)

theorem combLoop_spec (objs : List GeoObj) :
    ∀ (combs : List (String × Ref × Ref)) (names : List String) (σ σ₀ : Store),
      σ₀.next ≤ σ.next →
      (∀ i, i < σ₀.next → σ.mem i = σ₀.mem i) →
      (∀ obj ∈ objs, obj.modifier.r < σ₀.next ∧ obj.modifier_blk.r < σ₀.next) →
      (combLoop objs combs names σ).2.1 = names ++ objs.map (combKey σ₀) ∧
      (combLoop objs combs names σ).1.map Prod.fst =
        combs.map Prod.fst ++
          dedupKeysAux (objs.map (combKey σ₀)) (combs.map Prod.fst) ∧
      (∀ e ∈ (combLoop objs combs names σ).1, e ∈ combs ∨
        ∃ obj ∈ objs, e.1 = combKey σ₀ obj ∧
          e.2.1.r < (combLoop objs combs names σ).2.2.next ∧
          e.2.2.r < (combLoop objs combs names σ).2.2.next ∧
          (combLoop objs combs names σ).2.2.mem e.2.1.r =
            { σ₀.mem obj.modifier.r with identifier := e.1 } ∧
          (combLoop objs combs names σ).2.2.mem e.2.2.r =
            { σ₀.mem obj.modifier_blk.r with identifier := e.1 }) := by
  induction objs with
  | nil =>
    intro combs names σ σ₀ hmono hagree hwf
    refine ⟨by simp [combLoop], by simp [combLoop, dedupKeysAux], ?_⟩
    intro e he
    exact Or.inl (by simpa [combLoop] using he)
  | cons obj rest ih =>
    intro combs names σ σ₀ hmono hagree hwf
    have hobj := hwf obj (List.mem_cons_self _ _)
    have hkey : combKey σ obj = combKey σ₀ obj := by
      unfold combKey
      rw [hagree _ hobj.1, hagree _ hobj.2]
    have hwf' : ∀ o ∈ rest, o.modifier.r < σ₀.next ∧ o.modifier_blk.r < σ₀.next :=
      fun o ho => hwf o (List.mem_cons_of_mem _ ho)
    cases hl : dictLookup combs (combKey σ obj) with
    | some p =>
      have hstep : combLoop (obj :: rest) combs names σ =
          combLoop rest combs (names ++ [combKey σ obj]) σ := by
        simp only [combLoop, hl]
      have hmem : combKey σ obj ∈ combs.map Prod.fst := by
        by_contra hc
        rw [(dictLookup_eq_none_iff combs _).2 hc] at hl
        exact Option.noConfusion hl
      obtain ⟨ihn, ihk, ihe⟩ := ih combs (names ++ [combKey σ obj]) σ σ₀ hmono hagree hwf'
      rw [hstep]
      refine ⟨?_, ?_, ?_⟩
      · rw [ihn, hkey]; simp
      · have hmem₀ : combKey σ₀ obj ∈ combs.map Prod.fst := hkey ▸ hmem
        rw [ihk, List.map_cons, dedupKeysAux, if_pos hmem₀]
      · intro e he
        rcases ihe e he with h | ⟨o, ho, hrest⟩
        · exact Or.inl h
        · exact Or.inr ⟨o, List.mem_cons_of_mem _ ho, hrest⟩
    | none =>
      have hnotmem : combKey σ obj ∉ combs.map Prod.fst :=
        (dictLookup_eq_none_iff combs _).1 hl
      have hstep : combLoop (obj :: rest) combs names σ =
          combLoop rest
            (combs ++ [(combKey σ obj, (clonePair σ obj (combKey σ obj)).1.1,
              (clonePair σ obj (combKey σ obj)).1.2)])
            (names ++ [combKey σ obj]) (clonePair σ obj (combKey σ obj)).2 := by
        simp only [combLoop, hl]
      set k := combKey σ obj with hk
      set σ4 := (clonePair σ obj k).2 with hσ4
      set combs2 := combs ++ [(k, (clonePair σ obj k).1.1, (clonePair σ obj k).1.2)]
        with hcombs2
      have hmono4 : σ₀.next ≤ σ4.next := by
        rw [hσ4, clonePair_next]; omega
      have hagree4 : ∀ i, i < σ₀.next → σ4.mem i = σ₀.mem i := by
        intro i hi
        rw [hσ4, clonePair_mem_of_lt σ obj k (lt_of_lt_of_le hi hmono)]
        exact hagree i hi
      obtain ⟨ihn, ihk, ihe⟩ := ih combs2 (names ++ [k]) σ4 σ₀ hmono4 hagree4 hwf'
      rw [hstep]
      refine ⟨?_, ?_, ?_⟩
      · rw [ihn, hkey]; simp
      · rw [ihk, List.map_cons, ← hkey]
        have hrhs : dedupKeysAux (k :: rest.map (combKey σ₀)) (combs.map Prod.fst) =
            k :: dedupKeysAux (rest.map (combKey σ₀)) (k :: combs.map Prod.fst) := by
          rw [dedupKeysAux, if_neg hnotmem]
        rw [hrhs]
        have hcongr :
            dedupKeysAux (rest.map (combKey σ₀)) (combs2.map Prod.fst) =
            dedupKeysAux (rest.map (combKey σ₀)) (k :: combs.map Prod.fst) := by
          refine dedupKeysAux_congr _ _ _ fun y => ?_
          simp [hcombs2, or_comm]
        rw [hcongr, hcombs2]
        simp
      · intro e he
        rcases ihe e he with h | ⟨o, ho, hrest⟩
        · rw [hcombs2] at h
          rcases List.mem_append.1 h with h1 | h1
          · exact Or.inl h1
          · -- e is the freshly created entry for this object's key
            have he2 : e = (k, (clonePair σ obj k).1.1, (clonePair σ obj k).1.2) := by
              simpa using h1
            subst he2
            refine Or.inr ⟨obj, List.mem_cons_self _ _, by rw [← hkey], ?_, ?_, ?_, ?_⟩
            · rw [clonePair_ref_fst]
              calc σ.next < σ4.next := by rw [hσ4, clonePair_next]; omega
                _ ≤ _ := combLoop_next_le rest combs2 (names ++ [k]) σ4
            · rw [clonePair_ref_snd]
              calc σ.next + 1 < σ4.next := by rw [hσ4, clonePair_next]; omega
                _ ≤ _ := combLoop_next_le rest combs2 (names ++ [k]) σ4
            · rw [clonePair_ref_fst]
              have hmm : (combLoop rest combs2 (names ++ [k]) σ4).2.2.mem σ.next =
                  σ4.mem σ.next :=
                combLoop_mem_of_lt rest combs2 (names ++ [k]) σ4 σ.next
                  (by rw [hσ4, clonePair_next]; omega)
              rw [hmm, hσ4, clonePair_mem_fst, hagree _ hobj.1]
            · rw [clonePair_ref_snd]
              have hmm : (combLoop rest combs2 (names ++ [k]) σ4).2.2.mem (σ.next + 1) =
                  σ4.mem (σ.next + 1) :=
                combLoop_mem_of_lt rest combs2 (names ++ [k]) σ4 (σ.next + 1)
                  (by rw [hσ4, clonePair_next]; omega)
              rw [hmm, hσ4,
                clonePair_mem_snd σ obj k (lt_of_lt_of_le hobj.2 hmono),
                hagree _ hobj.2]
        · exact Or.inr ⟨o, List.mem_cons_of_mem _ ho, hrest⟩

/-- C7: `_unique_modifier_blk_combinations` groups geometry objects by the
synthetic composite key formed from the visible modifier's identifier and the
blk modifier's identifier: the returned name list has exactly one entry per
input object mapping every object to its combination's key (so two objects
sharing a modifier pair map to the same single entry), each distinct key
yields exactly one entry (keys are unique and are exactly the keys of the
objects), and each entry holds a cloned modifier pair, both clones renamed to
the key. -/
theorem unique_modifier_blk_combinations_spec (σ : Store) (objs : List GeoObj)
    (hwf : ∀ obj ∈ objs, obj.modifier.r < σ.next ∧ obj.modifier_blk.r < σ.next) :
    (uniqueModifierBlkCombinations σ objs).2.1 = objs.map (combKey σ) ∧
    ((uniqueModifierBlkCombinations σ objs).1.map Prod.fst).Nodup ∧
    (∀ kk, kk ∈ (uniqueModifierBlkCombinations σ objs).1.map Prod.fst ↔
      kk ∈ objs.map (combKey σ)) ∧
    (∀ e ∈ (uniqueModifierBlkCombinations σ objs).1, ∃ obj ∈ objs,
      e.1 = combKey σ obj ∧
      (uniqueModifierBlkCombinations σ objs).2.2.mem e.2.1.r =
        { σ.mem obj.modifier.r with identifier := e.1 } ∧
      (uniqueModifierBlkCombinations σ objs).2.2.mem e.2.2.r =
        { σ.mem obj.modifier_blk.r with identifier := e.1 }) := by
  obtain ⟨hn, hkeys, hent⟩ := combLoop_spec objs [] [] σ σ (le_refl _)
    (fun i _ => rfl) hwf
  refine ⟨by simpa [uniqueModifierBlkCombinations] using hn, ?_, ?_, ?_⟩
  · rw [uniqueModifierBlkCombinations, hkeys]
    simpa using dedupKeysAux_nodup (objs.map (combKey σ)) []
  · intro kk
    rw [uniqueModifierBlkCombinations, hkeys]
    simp [dedupKeysAux_mem]
  · intro e he
    rcases hent e he with h | ⟨o, ho, h1, _, _, h4, h5⟩
    · simp at h
    · exact ⟨o, ho, h1, h4, h5⟩

/-- Witness for C7: two objects sharing the same (visible, blk) modifier pair
produce two identical names and a single combination entry, renamed to the
composite key. -/
theorem unique_modifier_blk_combinations_spec_witness :
    let v : ModVal := ⟨"matA", false, "", true, "plastic"⟩
    let b : ModVal := ⟨"blkA", false, "", true, "plastic"⟩
    let σ : Store := ⟨2, fun i => if i = 0 then v else b⟩
    let o1 : GeoObj := ⟨"o1", [], [], ⟨0⟩, ⟨1⟩⟩
    let o2 : GeoObj := ⟨"o2", [], [], ⟨0⟩, ⟨1⟩⟩
    (uniqueModifierBlkCombinations σ [o1, o2]).2.1 =
      [combKey σ o1, combKey σ o2] ∧
    ((uniqueModifierBlkCombinations σ [o1, o2]).1.map Prod.fst).Nodup := by
  intro v b σ o1 o2
  have h := unique_modifier_blk_combinations_spec σ [o1, o2]
    (by intro obj hobj; simp at hobj; rcases hobj with h | h <;> simp [h, o1, o2, σ])
  exact ⟨by rw [h.1]; simp, h.2.1⟩

/-! ## Serialisation collaborators and the static writer
(writer.py 480-542, 605-628) -/

/-- Kernel-computable scan returning the text after the last slash. -/
def lastComponentAux : List Char → List Char → List Char
  | [], acc => acc.reverse
  | c :: rest, acc =>
    if c = '/' then lastComponentAux rest [] else lastComponentAux rest (c :: acc)

/-- Python `os.path.split(p)[-1]`: the final path component. -/
def basename (p : String) : String :=
  ⟨lastComponentAux p.data []⟩

/-- Model of the external `Modifier.to_radiance` text: one block recording the
modifier's type tag, identifier, `bsdf_file` (for BSDF materials) and
parameters.  The `minimal` flag only changes whitespace in the real output and
is abstracted away. -/
def modToRadiance (v : ModVal) : String :=
  if v.is_bsdf then
    "void BSDF " ++ v.identifier ++ " " ++ v.bsdf_file ++ " " ++ v.params
  else
    "void material " ++ v.identifier ++ " " ++ v.params

/-- Model of the external `Polygon(identifier, vertices, modifier)` /
`to_radiance(minimal, False, False)` text: one polygon block naming the
resolved modifier, the polygon identifier and its vertex data. -/
def polygonToRadiance (modifier : ModVal) (identifier : String)
    (vertices : List Int) : String :=
  modifier.identifier ++ " polygon " ++ identifier ++ " 0 0 " ++
    String.intercalate " " (vertices.map toString)

/-- writer.py `_process_bsdf_modifier`: duplicate the BSDF modifier (to avoid
editing the original), point the duplicate's hidden `_bsdf_file` at the
model's resource folder, and serialise the duplicate.  Returns the serialised
text (which the caller appends to `mod_strs`) and the updated store. -/
def processBsdfModifier (σ : Store) (modifier : Ref) : String × Store :=
  let bsdf_name := basename ((σ.mem modifier.r).bsdf_file)
  let mod_dup := (σ.duplicate modifier).1
  let σ1 := (σ.duplicate modifier).2
  let σ2 := σ1.setBsdfFile mod_dup ("model/bsdf/" ++ bsdf_name)
  (modToRadiance (σ2.mem mod_dup.r), σ2)

/-- The first serialisation loop of `_write_static_files` (lines 527-531):
serialise each modifier, routing BSDF materials through
`_process_bsdf_modifier`; all output text goes to `mod_strs`. -/
def modStrsLoop : List Ref → Store → List String × Store
  | [], σ => ([], σ)
  | mod :: rest, σ =>
    if (σ.mem mod.r).is_bsdf then
      let s := (processBsdfModifier σ mod).1
      let p := modStrsLoop rest (processBsdfModifier σ mod).2
      (s :: p.1, p.2)
    else
      let p := modStrsLoop rest σ
      (modToRadiance (σ.mem mod.r) :: p.1, p.2)

/-- The second serialisation loop of `_write_static_files` (lines 532-536)
over `modifiers_blk`.  The source passes `mod_strs`, not `mod_blk_strs`, to
`_process_bsdf_modifier` in the BSDF branch, so the serialised text of a BSDF
blk modifier lands in the materials list; the first returned list is what this
loop appends to `mod_strs`, the second what it appends to `mod_blk_strs`. -/
def modBlkStrsLoop : List Ref → Store → List String × List String × Store
  | [], σ => ([], [], σ)
  | mod :: rest, σ =>
    if (σ.mem mod.r).is_bsdf then
      let s := (processBsdfModifier σ mod).1
      let p := modBlkStrsLoop rest (processBsdfModifier σ mod).2
      (s :: p.1, p.2.1, p.2.2)
    else
      let p := modBlkStrsLoop rest σ
      (p.1, modToRadiance (σ.mem mod.r) :: p.2.1, p.2.2)

/-- The geometry lookup `mod_combs[mod_name][0]` of `_write_static_files`.
Python raises KeyError for an absent name; the writer only looks up names
produced by `_unique_modifier_blk_combinations` together with the dict, for
which lookup always succeeds, so an absent key is mapped to a sentinel
reference here. -/
def combModifier (mod_combs : List (String × Ref × Ref)) (mod_name : String) : Ref :=
  match dictLookup mod_combs mod_name with
  | some p => p.1
  | none => ⟨0⟩

/-- writer.py `_write_static_files`: for a non-empty category, write the
geometry file (default-blk objects first, each with its own modifier, then
blk-overridden objects with their combination modifier), the materials file
and the blacked-out materials file into the category's sub-folder; for an
empty category write nothing.  File names are `sub_folder/file_id` plus
extension; contents are the double-newline joins the source produces. -/
def writeStaticFiles (σ : Store) (sub_folder file_id : String)
    (geometry geometry_blk : List GeoObj) (modifiers modifiers_blk : List Ref)
    (mod_combs : List (String × Ref × Ref)) (mod_names : List String)
    (punched_verts : Bool) : List (String × String) × Store :=
  if geometry.length ≠ 0 ∨ geometry_blk.length ≠ 0 then
    let face_strs :=
      if punched_verts then
        geometry.map (fun face =>
          polygonToRadiance (σ.mem face.modifier.r) face.identifier
            face.punched_vertices) ++
        (geometry_blk.zip mod_names).map (fun p =>
          polygonToRadiance (σ.mem (combModifier mod_combs p.2).r) p.1.identifier
            p.1.punched_vertices)
      else
        geometry.map (fun face =>
          polygonToRadiance (σ.mem face.modifier.r) face.identifier
            face.vertices) ++
        (geometry_blk.zip mod_names).map (fun p =>
          polygonToRadiance (σ.mem (combModifier mod_combs p.2).r) p.1.identifier
            p.1.vertices)
    let ms := modStrsLoop modifiers σ
    let mbs := modBlkStrsLoop modifiers_blk ms.2
    let mod_strs := ms.1 ++ mbs.1
    let mod_blk_strs := mbs.2.1
    ([(sub_folder ++ "/" ++ file_id ++ ".rad", String.intercalate "\n\n" face_strs),
      (sub_folder ++ "/" ++ file_id ++ ".mat", String.intercalate "\n\n" mod_strs),
      (sub_folder ++ "/" ++ file_id ++ ".blk", String.intercalate "\n\n" mod_blk_strs)],
     mbs.2.2)
  else ([], σ)

/-- The blk-substitution loop of writer.py `_collect_modifiers` (lines
608-615): for each unique modifier, substitute a duplicate of the canonical
black modifier renamed to the modifier's identifier when the modifier is
opaque or the category is the (always blacked) static aperture category;
otherwise pass the modifier through unchanged. -/
def collectBlkLoop (aperture : Bool) : List Ref → Store → List Ref × Store
  | [], σ => ([], σ)
  | mod :: rest, σ =>
    if (σ.mem mod.r).opaque_flag || aperture then
      let mod_blk := (σ.alloc blackVal).1
      let σ1 := (σ.alloc blackVal).2
      let σ2 := σ1.setIdentifier mod_blk ((σ1.mem mod.r).identifier)
      let p := collectBlkLoop aperture rest σ2
      (mod_blk :: p.1, p.2)
    else
      let p := collectBlkLoop aperture rest σ
      (mod :: p.1, p.2)

/-- writer.py `_collect_modifiers`: unique modifiers, their blk counterparts,
the modifier/modifier_blk combinations of the blk-overridden geometry, and the
per-object combination names; the combination pairs are appended to the
modifier and blk lists. -/
def collectModifiers (σ : Store) (geo geo_blk : List GeoObj) (aperture : Bool) :
    (List Ref × List Ref × List (String × Ref × Ref) × List String) × Store :=
  let mods := uniqueModifiers σ geo
  let pb := collectBlkLoop aperture mods σ
  let pc := uniqueModifierBlkCombinations pb.2 geo_blk
  ((mods ++ pc.1.map (fun e => e.2.1), pb.1 ++ pc.1.map (fun e => e.2.2),
    pc.1, pc.2.1), pc.2.2)

/-- C3 evaluated at the failing input: a static category whose only blk
modifier is a BSDF.  The writer emits three files, but the serialised BSDF
text lands in the materials (`.mat`) file — once from the `modifiers` loop and
once from the `modifiers_blk` loop — while the blacked-out materials (`.blk`)
file is left empty instead of containing the BSDF blk modifier. -/
theorem write_static_files_bsdf_blk_misfiled :
    let v : ModVal := ⟨"glass_mod", true, "data/clear.xml", false, "bsdf"⟩
    let σ : Store := ⟨1, fun _ => v⟩
    let obj : GeoObj := ⟨"ap1", [0], [0], ⟨0⟩, ⟨0⟩⟩
    (writeStaticFiles σ "aperture" "aperture" [obj] [] [⟨0⟩] [⟨0⟩] [] [] false).1 =
      [("aperture/aperture.rad", polygonToRadiance v "ap1" [0]),
       ("aperture/aperture.mat",
         (processBsdfModifier σ ⟨0⟩).1 ++ "\n\n" ++
           (processBsdfModifier (processBsdfModifier σ ⟨0⟩).2 ⟨0⟩).1),
       ("aperture/aperture.blk", "")] ∧ v.is_bsdf = true := by
  constructor
  · rfl
  · rfl

/-! ## Injectivity of the decimal state index embedded in file names

The dynamic writers format the state index into file names with Python `str`;
`Nat.repr` plays that role here and we prove it injective. -/

/-- Decimal digit characters of a natural number, most significant first: the
functional description of `Nat.toDigitsCore` at base 10. -/
def natDigits (n : Nat) : List Char :=
  if h : n / 10 = 0 then [Nat.digitChar (n % 10)]
  else natDigits (n / 10) ++ [Nat.digitChar (n % 10)]
decreasing_by
  have h0 : n ≠ 0 := fun hz => h (by simp [hz])
  exact Nat.div_lt_self (Nat.pos_of_ne_zero h0) (by decide)

theorem toDigitsCore_eq_natDigits (fuel : Nat) :
    ∀ (n : Nat) (acc : List Char), n < fuel →
      Nat.toDigitsCore 10 fuel n acc = natDigits n ++ acc := by
  induction fuel with
  | zero => intro n acc h; omega
  | succ fuel ih =>
    intro n acc h
    by_cases h0 : n / 10 = 0
    · simp only [Nat.toDigitsCore]
      rw [if_pos h0, natDigits, dif_pos h0]
      rfl
    · have hne : n ≠ 0 := fun hz => h0 (by simp [hz])
      have hlt : n / 10 < n := Nat.div_lt_self (Nat.pos_of_ne_zero hne) (by decide)
      have hexp : natDigits n = natDigits (n / 10) ++ [Nat.digitChar (n % 10)] := by
        conv_lhs => rw [natDigits]
        rw [dif_neg h0]
      simp only [Nat.toDigitsCore]
      rw [if_neg h0, ih (n / 10) (Nat.digitChar (n % 10) :: acc) (by omega), hexp]
      simp

theorem toDigits_eq_natDigits (n : Nat) : Nat.toDigits 10 n = natDigits n := by
  rw [Nat.toDigits, toDigitsCore_eq_natDigits (n + 1) n [] (Nat.lt_succ_self n),
    List.append_nil]

/-- Numeric value of a decimal digit character. -/
def digitVal (c : Char) : Nat := c.toNat - 48

/-- Decode a most-significant-first decimal digit string. -/
def decodeDigits (l : List Char) : Nat :=
  l.foldl (fun a c => a * 10 + digitVal c) 0

theorem digitVal_digitChar {m : Nat} (h : m < 10) :
    digitVal (Nat.digitChar m) = m := by
  interval_cases m <;> rfl

theorem decodeDigits_append_digit (l : List Char) (c : Char) :
    decodeDigits (l ++ [c]) = decodeDigits l * 10 + digitVal c := by
  unfold decodeDigits
  rw [List.foldl_append]
  rfl

theorem decodeDigits_natDigits (n : Nat) : decodeDigits (natDigits n) = n := by
  induction n using Nat.strong_induction_on with
  | _ n ih =>
    by_cases h0 : n / 10 = 0
    · rw [natDigits, dif_pos h0]
      have hlt : n < 10 := by omega
      have hm : n % 10 = n := Nat.mod_eq_of_lt hlt
      simp [decodeDigits, digitVal_digitChar (hm ▸ Nat.mod_lt n (by omega)), hm]
    · have hne : n ≠ 0 := fun hz => h0 (by simp [hz])
      rw [natDigits, dif_neg h0, decodeDigits_append_digit,
        ih (n / 10) (Nat.div_lt_self (Nat.pos_of_ne_zero hne) (by decide)),
        digitVal_digitChar (Nat.mod_lt n (by omega))]
      omega

theorem natRepr_injective {a b : Nat} (h : Nat.repr a = Nat.repr b) : a = b := by
  have hd : Nat.toDigits 10 a = Nat.toDigits 10 b := congrArg String.data h
  rw [toDigits_eq_natDigits, toDigits_eq_natDigits] at hd
  have h2 := congrArg decodeDigits hd
  rwa [decodeDigits_natDigits, decodeDigits_natDigits] at h2

/-- The shared group-level matrix file name of `_write_mtx_files`. -/
def mtxFileName (gid : String) : String := "./" ++ gid ++ "..mtx.rad"

/-- The per-state view-matrix file name of `_write_mtx_files`. -/
def vmtxFileName (gid : String) (i : Nat) : String :=
  "./" ++ gid ++ "..vmtx.." ++ Nat.repr i ++ ".rad"

/-- The per-state daylight-matrix file name of `_write_mtx_files`. -/
def dmtxFileName (gid : String) (i : Nat) : String :=
  "./" ++ gid ++ "..dmtx.." ++ Nat.repr i ++ ".rad"

theorem vmtxFileName_inj {gid : String} {i j : Nat}
    (h : vmtxFileName gid i = vmtxFileName gid j) : i = j := by
  unfold vmtxFileName at h
  have hd := congrArg String.data h
  simp only [String.data_append] at hd
  exact natRepr_injective
    (String.ext (List.append_cancel_left (List.append_cancel_right hd)))

theorem dmtxFileName_inj {gid : String} {i j : Nat}
    (h : dmtxFileName gid i = dmtxFileName gid j) : i = j := by
  unfold dmtxFileName at h
  have hd := congrArg String.data h
  simp only [String.data_append] at hd
  exact natRepr_injective
    (String.ext (List.append_cancel_left (List.append_cancel_right hd)))

theorem vmtxFileName_ne_dmtxFileName (gid : String) (i j : Nat) :
    vmtxFileName gid i ≠ dmtxFileName gid j := by
  intro h
  unfold vmtxFileName dmtxFileName at h
  have hd := congrArg String.data h
  simp only [String.data_append, List.append_assoc] at hd
  have h1 := List.append_cancel_left (List.append_cancel_left hd)
  simp at h1

/-! ## Dynamic groups and their writers (writer.py 359-477) -/

/-- One state of one dynamic object, as `_write_mtx_files` inspects it via
`properties.radiance._states`: whether its view/daylight matrix configuration
is the default. -/
structure ObjState where
  mtxs_default : Bool
deriving DecidableEq, Repr

/-- One dynamic object of a group. -/
structure DynObject where
  states : List ObjState
deriving DecidableEq, Repr

/-- One state of a dynamic group.  `tmtx_bsdf_file` models the result of the
group's `tmxt_bsdf` method for this state: the path of the BSDF transmission
file when the state carries transmission data, `none` otherwise. -/
structure DynState where
  tmtx_bsdf_file : Option String
deriving DecidableEq, Repr

/-- A dynamic sub-face or shade group (the external honeybee dynamic-group
collaborator, exposing `identifier`, `is_indoor`, `dynamic_objects`, ordered
`states`, and the `to_radiance`-family methods modelled below). -/
structure DynGroup where
  identifier : String
  is_indoor : Bool
  dynamic_objects : List DynObject
  states : List DynState
deriving DecidableEq, Repr

/-- One record of a group's states.json list: relative paths of the state's
artifacts.  `tmtx`, `vmtx` and `dmtx` are absent (`none`) until
`_write_mtx_files` fills them for states that carry transmission data. -/
structure StateRec where
  default : String
  direct : String
  black : String
  tmtx : Option String
  vmtx : Option String
  dmtx : Option String
deriving DecidableEq, Repr

/-- Modelled from the spec: the per-state record of `states_json_list`
(honeybee_radiance.dynamic, not under src/) — default and direct file names
carry the group identifier and the state index; the black file name is shared
by all states of the group; matrix fields start absent. -/
def stateRecOf (g : DynGroup) (state_i : Nat) : StateRec :=
  { default := "./" ++ g.identifier ++ ".." ++ Nat.repr state_i ++ ".rad"
    direct := "./" ++ g.identifier ++ "..direct.." ++ Nat.repr state_i ++ ".rad"
    black := "./" ++ g.identifier ++ "..black.rad"
    tmtx := none, vmtx := none, dmtx := none }

/-- Modelled from the spec: `group.states_json_list` returns one record per
state of the group, in the group's input state order; index 0 is the group's
default state. -/
def statesJsonList (g : DynGroup) : List StateRec :=
  (List.range g.states.length).map (stateRecOf g)

/-- Model of the external `group.to_radiance(state_i, direct, minimal)`. -/
def groupToRadiance (g : DynGroup) (state_i : Nat) (direct : Bool) : String :=
  "scene " ++ g.identifier ++ " state " ++ Nat.repr state_i ++
    (if direct then " direct" else " default")

/-- Model of the external `group.blk_to_radiance(minimal)`. -/
def groupBlkToRadiance (g : DynGroup) : String :=
  "black scene " ++ g.identifier

/-- Model of the external `group.vmtx_to_radiance(state_i, minimal)`. -/
def vmtxToRadiance (g : DynGroup) (state_i : Nat) : String :=
  "vmtx " ++ g.identifier ++ " " ++ Nat.repr state_i

/-- Model of the external `group.dmtx_to_radiance(state_i, minimal)`. -/
def dmtxToRadiance (g : DynGroup) (state_i : Nat) : String :=
  "dmtx " ++ g.identifier ++ " " ++ Nat.repr state_i

/-- Kernel-computable left-to-right removal of every dot-slash occurrence. -/
def stripDotSlashAux : List Char → List Char
  | [] => []
  | '.' :: '/' :: rest => stripDotSlashAux rest
  | c :: rest => c :: stripDotSlashAux rest

/-- Python `name.replace(dotslash, empty)` as the writers apply it to the
relative file names before writing: remove every (non-overlapping, leftmost)
occurrence of the dot-slash prefix pattern. -/
def stripDotSlash (s : String) : String := ⟨stripDotSlashAux s.data⟩

/-- writer.py `_write_dynamic_shade_files`: write one default-mode and one
direct-mode geometry file per state, in state order, into the sub-folder;
return the states list. -/
def writeDynamicShadeFiles (sub_folder : String) (g : DynGroup) :
    List StateRec × List (String × String) :=
  let states_list := statesJsonList g
  (states_list,
    states_list.enum.bind fun p =>
      [(sub_folder ++ "/" ++ stripDotSlash p.2.default, groupToRadiance g p.1 false),
       (sub_folder ++ "/" ++ stripDotSlash p.2.direct, groupToRadiance g p.1 true)])

/-- writer.py `_write_dynamic_subface_files`: write one default-mode and one
direct-mode geometry file per state, then one black representation file whose
name is taken from `file_names` — the loop variable still bound to the last
iterated state's record.  For a group with no states the loop never runs and
the black write raises `NameError` on the unbound `file_names`. -/
def writeDynamicSubfaceFiles (sub_folder : String) (g : DynGroup) :
    Except String (List StateRec × List (String × String)) :=
  let states_list := statesJsonList g
  let state_files := states_list.enum.bind fun p =>
    [(sub_folder ++ "/" ++ stripDotSlash p.2.default, groupToRadiance g p.1 false),
     (sub_folder ++ "/" ++ stripDotSlash p.2.direct, groupToRadiance g p.1 true)]
  match states_list.getLast? with
  | none => Except.error "NameError: name file_names is not defined"
  | some file_names =>
    Except.ok (states_list,
      state_files ++
        [(sub_folder ++ "/" ++ stripDotSlash file_names.black, groupBlkToRadiance g)])

/-- The shared-matrix test of `_write_mtx_files` (line 429): all states of all
of the group's dynamic objects report the default matrix configuration. -/
def mtxsDefaultAll (g : DynGroup) : Bool :=
  g.dynamic_objects.all fun obj => obj.states.all fun st => st.mtxs_default

/-- Model of the external `group.tmxt_bsdf(state_i)`: the state's BSDF
transmission file, `none` when the state has no transmission data (or the
index is out of range). -/
def tmxtBsdf (g : DynGroup) (state_i : Nat) : Option String :=
  (g.states.get? state_i).bind fun st => st.tmtx_bsdf_file

/-- The per-state loop of `_write_mtx_files` (lines 436-458), carried out from
state index `state_i`: annotate each transmission-carrying record with its
tmtx name and its vmtx/dmtx references (the shared file when `one_mtx`, a
distinct per-state pair otherwise, written immediately), and report whether
any state carried transmission data (`tmxt_valid`). -/
def mtxLoop (sub_folder : String) (g : DynGroup) (one_mtx : Bool) :
    Nat → List StateRec → List StateRec × List (String × String) × Bool
  | _, [] => ([], [], false)
  | state_i, st :: rest =>
    let p := mtxLoop sub_folder g one_mtx (state_i + 1) rest
    match tmxtBsdf g state_i with
    | none => (st :: p.1, p.2.1, p.2.2)
    | some f =>
      if one_mtx then
        ({ st with
            tmtx := some (basename f)
            vmtx := some (mtxFileName g.identifier)
            dmtx := some (mtxFileName g.identifier) } :: p.1, p.2.1, true)
      else
        ({ st with
            tmtx := some (basename f)
            vmtx := some (vmtxFileName g.identifier state_i)
            dmtx := some (dmtxFileName g.identifier state_i) } :: p.1,
         (sub_folder ++ "/" ++ stripDotSlash (vmtxFileName g.identifier state_i),
           vmtxToRadiance g state_i) ::
         (sub_folder ++ "/" ++ stripDotSlash (dmtxFileName g.identifier state_i),
           dmtxToRadiance g state_i) :: p.2.1, true)

/-- writer.py `_write_mtx_files`: decide the shared-vs-per-state question
before any write, run the per-state loop, and finally write the single
group-level matrix file when the configuration is shared and some state
carried transmission data.  (The final write passes the mtx name unstripped,
exactly as the source does.)  Returns the annotated records and the write
trace. -/
def writeMtxFiles (sub_folder : String) (g : DynGroup)
    (states_json_list : List StateRec) : List StateRec × List (String × String) :=
  let one_mtx := mtxsDefaultAll g
  let p := mtxLoop sub_folder g one_mtx 0 states_json_list
  if one_mtx && p.2.2 then
    (p.1, p.2.1 ++ [(sub_folder ++ "/" ++ mtxFileName g.identifier, vmtxToRadiance g 0)])
  else (p.1, p.2.1)

/-- Counterexample to C2 as stated: a group whose every state reports the
default matrix configuration (shared) but whose single state carries no
transmission data.  `_write_mtx_files` writes zero matrix files, not exactly
one group-level matrix file. -/
theorem write_mtx_files_shared_without_transmission :
    let g : DynGroup := ⟨"grp", false, [⟨[⟨true⟩]⟩], [⟨none⟩]⟩
    mtxsDefaultAll g = true ∧
      (writeMtxFiles "aperture_group" g (statesJsonList g)).2 = [] := by
  exact ⟨rfl, rfl⟩

/-- C10: `_write_dynamic_subface_files` on a group with an empty state list
reaches the black-file write with the loop variable `file_names` unbound and
fails; for a group with at least one state it writes the per-state files and
then exactly one black file, named from the last state's record, whose name is
shared by every state's record. -/
theorem write_dynamic_subface_files_black (sub_folder : String) (g : DynGroup) :
    (g.states = [] →
      writeDynamicSubfaceFiles sub_folder g =
        Except.error "NameError: name file_names is not defined") ∧
    (g.states ≠ [] →
      ∃ st_d files, writeDynamicSubfaceFiles sub_folder g = Except.ok (st_d, files) ∧
        files = ((statesJsonList g).enum.bind fun p =>
          [(sub_folder ++ "/" ++ stripDotSlash p.2.default, groupToRadiance g p.1 false),
           (sub_folder ++ "/" ++ stripDotSlash p.2.direct, groupToRadiance g p.1 true)]) ++
          [(sub_folder ++ "/" ++
              stripDotSlash ("./" ++ g.identifier ++ "..black.rad"),
            groupBlkToRadiance g)] ∧
        (∀ rec ∈ st_d, rec.black = "./" ++ g.identifier ++ "..black.rad")) := by
  constructor
  · intro h
    unfold writeDynamicSubfaceFiles statesJsonList
    rw [h]
    rfl
  · intro h
    have hlen : g.states.length ≠ 0 := fun hc => h (List.length_eq_zero.1 hc)
    have hne : statesJsonList g ≠ [] := by
      unfold statesJsonList
      intro hc
      exact hlen (by simpa using congrArg List.length hc)
    obtain ⟨lastRec, hlast⟩ := Option.ne_none_iff_exists'.1
      (mt List.getLast?_eq_none_iff.1 hne)
    have hblack : ∀ rec ∈ statesJsonList g,
        rec.black = "./" ++ g.identifier ++ "..black.rad" := by
      intro rec hrec
      unfold statesJsonList at hrec
      obtain ⟨i, _, hi⟩ := List.mem_map.1 hrec
      rw [← hi]
      rfl
    refine ⟨statesJsonList g,
      ((statesJsonList g).enum.bind fun p =>
        [(sub_folder ++ "/" ++ stripDotSlash p.2.default, groupToRadiance g p.1 false),
         (sub_folder ++ "/" ++ stripDotSlash p.2.direct, groupToRadiance g p.1 true)]) ++
        [(sub_folder ++ "/" ++ stripDotSlash lastRec.black, groupBlkToRadiance g)],
      ?_, ?_, hblack⟩
    · unfold writeDynamicSubfaceFiles
      dsimp only
      rw [hlast]
    · rw [hblack lastRec (List.mem_of_getLast?_eq_some hlast)]

/-- Witness for C10: a group with no states fails with the unbound-name
error; a one-state group writes its per-state files and one shared black
file. -/
theorem write_dynamic_subface_files_black_witness :
    (writeDynamicSubfaceFiles "aperture_group" ⟨"g0", false, [], []⟩ =
      Except.error "NameError: name file_names is not defined") ∧
    (∃ st_d files,
      writeDynamicSubfaceFiles "aperture_group" (⟨"g1", false, [], [⟨none⟩]⟩ : DynGroup) =
        Except.ok (st_d, files) ∧
      files = ((statesJsonList (⟨"g1", false, [], [⟨none⟩]⟩ : DynGroup)).enum.bind fun p =>
        [("aperture_group" ++ "/" ++ stripDotSlash p.2.default,
           groupToRadiance ⟨"g1", false, [], [⟨none⟩]⟩ p.1 false),
         ("aperture_group" ++ "/" ++ stripDotSlash p.2.direct,
           groupToRadiance ⟨"g1", false, [], [⟨none⟩]⟩ p.1 true)]) ++
        [("aperture_group" ++ "/" ++
            stripDotSlash ("./" ++ "g1" ++ "..black.rad"),
          groupBlkToRadiance ⟨"g1", false, [], [⟨none⟩]⟩)] ∧
      (∀ rec ∈ st_d, rec.black = "./" ++ "g1" ++ "..black.rad")) :=
  ⟨(write_dynamic_subface_files_black "aperture_group" ⟨"g0", false, [], []⟩).1 rfl,
   (write_dynamic_subface_files_black "aperture_group" ⟨"g1", false, [], [⟨none⟩]⟩).2
     (by simp)⟩

/-- The record produced for one state by the `_write_mtx_files` loop: states
without transmission data are untouched; transmission-carrying states get
their tmtx entry and either the shared mtx reference or their own per-state
vmtx/dmtx references. -/
def mtxAnnotate (g : DynGroup) (one_mtx : Bool) (state_i : Nat)
    (st : StateRec) : StateRec :=
  match tmxtBsdf g state_i with
  | none => st
  | some f =>
    if one_mtx then
      { st with
          tmtx := some (basename f)
          vmtx := some (mtxFileName g.identifier)
          dmtx := some (mtxFileName g.identifier) }
    else
      { st with
          tmtx := some (basename f)
          vmtx := some (vmtxFileName g.identifier state_i)
          dmtx := some (dmtxFileName g.identifier state_i) }

/-- The matrix files the `_write_mtx_files` loop writes for one state. -/
def mtxStateFiles (sub_folder : String) (g : DynGroup) (one_mtx : Bool)
    (state_i : Nat) : List (String × String) :=
  match tmxtBsdf g state_i with
  | none => []
  | some _ =>
    if one_mtx then []
    else
      [(sub_folder ++ "/" ++ stripDotSlash (vmtxFileName g.identifier state_i),
         vmtxToRadiance g state_i),
       (sub_folder ++ "/" ++ stripDotSlash (dmtxFileName g.identifier state_i),
         dmtxToRadiance g state_i)]

theorem mtxLoop_spec (sub : String) (g : DynGroup) (one_mtx : Bool) :
    ∀ (l : List StateRec) (k : Nat),
      (mtxLoop sub g one_mtx k l).1 =
        (List.enumFrom k l).map (fun p => mtxAnnotate g one_mtx p.1 p.2) ∧
      (mtxLoop sub g one_mtx k l).2.1 =
        (List.enumFrom k l).bind (fun p => mtxStateFiles sub g one_mtx p.1) ∧
      (mtxLoop sub g one_mtx k l).2.2 =
        (List.enumFrom k l).any (fun p => (tmxtBsdf g p.1).isSome) := by
  intro l
  induction l with
  | nil => intro k; exact ⟨rfl, rfl, rfl⟩
  | cons st rest ih =>
    intro k
    obtain ⟨ih1, ih2, ih3⟩ := ih (k + 1)
    cases hb : tmxtBsdf g k with
    | none =>
      refine ⟨?_, ?_, ?_⟩ <;>
        simp [mtxLoop, hb, mtxAnnotate, mtxStateFiles, ih1, ih2, ih3]
    | some f =>
      by_cases ho : one_mtx = true
      · subst ho
        refine ⟨?_, ?_, ?_⟩ <;>
          simp [mtxLoop, hb, mtxAnnotate, mtxStateFiles, ih1, ih2, ih3]
      · rw [Bool.not_eq_true] at ho
        subst ho
        refine ⟨?_, ?_, ?_⟩ <;>
          simp [mtxLoop, hb, mtxAnnotate, mtxStateFiles, ih1, ih2, ih3]

theorem writeMtxFiles_states (sub : String) (g : DynGroup) (l : List StateRec) :
    (writeMtxFiles sub g l).1 = (mtxLoop sub g (mtxsDefaultAll g) 0 l).1 := by
  unfold writeMtxFiles
  dsimp only
  by_cases h : (mtxsDefaultAll g &&
      (mtxLoop sub g (mtxsDefaultAll g) 0 l).2.2) = true <;> simp [h]

theorem statesJsonList_get (g : DynGroup) (i : Nat) (st : StateRec)
    (h : (statesJsonList g).get? i = some st) :
    i < g.states.length ∧ st = stateRecOf g i := by
  unfold statesJsonList at h
  rw [List.get?_map] at h
  cases hr : (List.range g.states.length).get? i with
  | none => rw [hr] at h; exact Option.noConfusion h
  | some m =>
    rw [hr] at h
    have hi : i < g.states.length := by
      obtain ⟨hlt, _⟩ := List.get?_eq_some.1 hr
      simpa using hlt
    have hm : m = i := by
      have h2 := List.get?_range hi
      rw [hr] at h2
      exact Option.some.inj h2
    subst hm
    exact ⟨hi, (Option.some.inj h).symm⟩

theorem statesJsonList_get_lt (g : DynGroup) {i : Nat} (hi : i < g.states.length) :
    (statesJsonList g).get? i = some (stateRecOf g i) := by
  unfold statesJsonList
  rw [List.get?_map, List.get?_range hi]
  rfl

theorem mtxStateFiles_shared (sub : String) (g : DynGroup) (j : Nat) :
    mtxStateFiles sub g true j = [] := by
  unfold mtxStateFiles
  cases tmxtBsdf g j <;> simp

theorem bind_mtxStateFiles_shared (sub : String) (g : DynGroup) :
    ∀ (l : List StateRec) (k : Nat),
      ((List.enumFrom k l).bind fun p => mtxStateFiles sub g true p.1) = [] := by
  intro l
  induction l with
  | nil => intro k; rfl
  | cons st rest ih =>
    intro k
    simp [mtxStateFiles_shared, ih (k + 1)]

theorem mem_enum_statesJsonList (g : DynGroup) {i : Nat} (hi : i < g.states.length) :
    (i, stateRecOf g i) ∈ List.enumFrom 0 (statesJsonList g) :=
  List.get?_mem (by rw [List.get?_enumFrom, statesJsonList_get_lt g hi]; simp)

theorem writeMtx_get (sub : String) (g : DynGroup) {i : Nat} {rec : StateRec}
    (h : (writeMtxFiles sub g (statesJsonList g)).1.get? i = some rec) :
    i < g.states.length ∧
      rec = mtxAnnotate g (mtxsDefaultAll g) i (stateRecOf g i) := by
  rw [writeMtxFiles_states,
    (mtxLoop_spec sub g (mtxsDefaultAll g) (statesJsonList g) 0).1,
    List.get?_map, List.get?_enumFrom] at h
  cases hs : (statesJsonList g).get? i with
  | none => rw [hs] at h; exact Option.noConfusion h
  | some st =>
    rw [hs] at h
    simp only [Option.map_some'] at h
    obtain ⟨hi, hst⟩ := statesJsonList_get g i st hs
    subst hst
    refine ⟨hi, ?_⟩
    have h2 := Option.some.inj h
    simpa using h2.symm

theorem writeMtxFiles_files (sub : String) (g : DynGroup) (l : List StateRec) :
    (writeMtxFiles sub g l).2 =
      if mtxsDefaultAll g && (mtxLoop sub g (mtxsDefaultAll g) 0 l).2.2 then
        (mtxLoop sub g (mtxsDefaultAll g) 0 l).2.1 ++
          [(sub ++ "/" ++ mtxFileName g.identifier, vmtxToRadiance g 0)]
      else (mtxLoop sub g (mtxsDefaultAll g) 0 l).2.1 := by
  unfold writeMtxFiles
  dsimp only
  by_cases h : (mtxsDefaultAll g && (mtxLoop sub g (mtxsDefaultAll g) 0 l).2.2) = true
  · rw [if_pos h, if_pos h]
  · rw [if_neg h, if_neg h]

/-- C2 amended: `_write_mtx_files` computes the shared-vs-per-state decision
before writing any file.  If shared and at least one state carries
transmission (BSDF) data, exactly one group-level matrix file is written and
every transmission-carrying state's record references its path for both vmtx
and dmtx; if shared and no state carries transmission data, no matrix file is
written at all; if any state is non-default, each transmission-carrying state
gets its own per-state vmtx and dmtx files, whose paths embed the state index
and are distinct across states and from each other; states without
transmission data receive no tmtx, vmtx or dmtx fields. -/
theorem write_mtx_files_spec (sub : String) (g : DynGroup) :
    (mtxsDefaultAll g = true →
      ((∃ i, i < g.states.length ∧ (tmxtBsdf g i).isSome = true) →
        (writeMtxFiles sub g (statesJsonList g)).2 =
          [(sub ++ "/" ++ mtxFileName g.identifier, vmtxToRadiance g 0)]) ∧
      ((∀ i, i < g.states.length → tmxtBsdf g i = none) →
        (writeMtxFiles sub g (statesJsonList g)).2 = []) ∧
      (∀ i rec, (writeMtxFiles sub g (statesJsonList g)).1.get? i = some rec →
        (tmxtBsdf g i).isSome = true →
        rec.vmtx = some (mtxFileName g.identifier) ∧
        rec.dmtx = some (mtxFileName g.identifier))) ∧
    (mtxsDefaultAll g = false →
      (∀ i rec f, (writeMtxFiles sub g (statesJsonList g)).1.get? i = some rec →
        tmxtBsdf g i = some f →
        rec.vmtx = some (vmtxFileName g.identifier i) ∧
        rec.dmtx = some (dmtxFileName g.identifier i) ∧
        (sub ++ "/" ++ stripDotSlash (vmtxFileName g.identifier i),
          vmtxToRadiance g i) ∈ (writeMtxFiles sub g (statesJsonList g)).2 ∧
        (sub ++ "/" ++ stripDotSlash (dmtxFileName g.identifier i),
          dmtxToRadiance g i) ∈ (writeMtxFiles sub g (statesJsonList g)).2) ∧
      (∀ i j, vmtxFileName g.identifier i = vmtxFileName g.identifier j → i = j) ∧
      (∀ i j, dmtxFileName g.identifier i = dmtxFileName g.identifier j → i = j) ∧
      (∀ i j, vmtxFileName g.identifier i ≠ dmtxFileName g.identifier j)) ∧
    (∀ i rec, (writeMtxFiles sub g (statesJsonList g)).1.get? i = some rec →
      tmxtBsdf g i = none →
      rec.tmtx = none ∧ rec.vmtx = none ∧ rec.dmtx = none) := by
  refine ⟨?_, ?_, ?_⟩
  · intro hone
    refine ⟨?_, ?_, ?_⟩
    · rintro ⟨i, hi, hsome⟩
      have hvalid : (mtxLoop sub g (mtxsDefaultAll g) 0 (statesJsonList g)).2.2 = true := by
        rw [(mtxLoop_spec sub g (mtxsDefaultAll g) (statesJsonList g) 0).2.2,
          List.any_eq_true]
        exact ⟨(i, stateRecOf g i), mem_enum_statesJsonList g hi, hsome⟩
      rw [writeMtxFiles_files, hvalid, hone,
        (mtxLoop_spec sub g true (statesJsonList g) 0).2.1,
        bind_mtxStateFiles_shared]
      simp
    · intro hnone
      have hvalid : (mtxLoop sub g (mtxsDefaultAll g) 0 (statesJsonList g)).2.2 = false := by
        rw [(mtxLoop_spec sub g (mtxsDefaultAll g) (statesJsonList g) 0).2.2,
          List.any_eq_false]
        rintro ⟨j, st⟩ hmem
        have h2 : (statesJsonList g)[j]? = some st :=
          List.mk_mem_enum_iff_getElem?.1 hmem
        have hj : j < g.states.length := by
          obtain ⟨hlt, _⟩ := List.getElem?_eq_some.1 h2
          simpa [statesJsonList] using hlt
        simp [hnone j hj]
      rw [writeMtxFiles_files, hvalid, hone,
        (mtxLoop_spec sub g true (statesJsonList g) 0).2.1,
        bind_mtxStateFiles_shared]
      simp
    · intro i rec hget hsome
      obtain ⟨hi, hrec⟩ := writeMtx_get sub g hget
      obtain ⟨f, hf⟩ := Option.isSome_iff_exists.1 hsome
      subst hrec
      simp [mtxAnnotate, hf, hone]
  · intro hone
    refine ⟨?_, fun i j h => vmtxFileName_inj h, fun i j h => dmtxFileName_inj h,
      fun i j => vmtxFileName_ne_dmtxFileName g.identifier i j⟩
    intro i rec f hget hf
    obtain ⟨hi, hrec⟩ := writeMtx_get sub g hget
    subst hrec
    have hfiles : (writeMtxFiles sub g (statesJsonList g)).2 =
        (List.enumFrom 0 (statesJsonList g)).bind
          (fun p => mtxStateFiles sub g false p.1) := by
      rw [writeMtxFiles_files, hone,
        (mtxLoop_spec sub g false (statesJsonList g) 0).2.1]
      simp
    refine ⟨?_, ?_, ?_, ?_⟩
    · simp [mtxAnnotate, hf, hone]
    · simp [mtxAnnotate, hf, hone]
    · rw [hfiles]
      refine List.mem_bind.2 ⟨(i, stateRecOf g i), mem_enum_statesJsonList g hi, ?_⟩
      simp [mtxStateFiles, hf]
    · rw [hfiles]
      refine List.mem_bind.2 ⟨(i, stateRecOf g i), mem_enum_statesJsonList g hi, ?_⟩
      simp [mtxStateFiles, hf]
  · intro i rec hget hnone
    obtain ⟨hi, hrec⟩ := writeMtx_get sub g hget
    subst hrec
    simp [mtxAnnotate, hnone, stateRecOf]

/-- Witness for C2 (amended): a one-state group with a non-default matrix
configuration and a BSDF-carrying state gets its own per-state vmtx and dmtx
paths, and the vmtx file is written. -/
theorem write_mtx_files_spec_witness :
    let g : DynGroup := ⟨"g", false, [⟨[⟨false⟩]⟩], [⟨some "clear.xml"⟩]⟩
    mtxsDefaultAll g = false ∧
    ∃ rec, (writeMtxFiles "aperture_group" g (statesJsonList g)).1.get? 0 = some rec ∧
      rec.vmtx = some (vmtxFileName g.identifier 0) ∧
      rec.dmtx = some (dmtxFileName g.identifier 0) ∧
      ("aperture_group" ++ "/" ++ stripDotSlash (vmtxFileName g.identifier 0),
        vmtxToRadiance g 0) ∈ (writeMtxFiles "aperture_group" g (statesJsonList g)).2 := by
  intro g
  have hget : (writeMtxFiles "aperture_group" g (statesJsonList g)).1.get? 0 =
      some ⟨"./g..0.rad", "./g..direct..0.rad", "./g..black.rad",
        some "clear.xml", some "./g..vmtx..0.rad", some "./g..dmtx..0.rad"⟩ := by decide
  obtain ⟨hcl, _, _, _⟩ := (write_mtx_files_spec "aperture_group" g).2.1 rfl
  obtain ⟨h1, h2, h3, _⟩ := hcl 0 _ "clear.xml" hget rfl
  exact ⟨rfl, _, hget, h1, h2, h3⟩

theorem enumFrom_range'_map {β : Type} (f : Nat → β) :
    ∀ (N k : Nat), List.enumFrom k ((List.range' k N).map f) =
      (List.range' k N).map (fun i => (i, f i)) := by
  intro N
  induction N with
  | zero => intro k; rfl
  | succ N ih =>
    intro k
    rw [List.range'_succ]
    simp only [List.map_cons, List.enumFrom_cons]
    rw [ih (k + 1)]

theorem statesJsonList_enum (g : DynGroup) :
    (statesJsonList g).enum =
      (List.range g.states.length).map fun i => (i, stateRecOf g i) := by
  unfold statesJsonList
  rw [List.range_eq_range']
  exact enumFrom_range'_map (stateRecOf g) g.states.length 0

theorem map_bind_eq {α β γ : Type} (l : List α) (f : α → β) (h : β → List γ) :
    (l.map f).bind h = l.bind fun a => h (f a) := by
  induction l with
  | nil => rfl
  | cons a rest ih => simp [ih]

theorem mtxAnnotate_preserves (g : DynGroup) (one : Bool) (i : Nat) (st : StateRec) :
    (mtxAnnotate g one i st).default = st.default ∧
    (mtxAnnotate g one i st).direct = st.direct ∧
    (mtxAnnotate g one i st).black = st.black := by
  unfold mtxAnnotate
  cases tmxtBsdf g i with
  | none => exact ⟨rfl, rfl, rfl⟩
  | some f => cases one <;> exact ⟨rfl, rfl, rfl⟩

theorem writeDynamicSubfaceFiles_ok (sub : String) (g : DynGroup)
    (h : g.states.length ≠ 0) :
    writeDynamicSubfaceFiles sub g = Except.ok (statesJsonList g,
      ((statesJsonList g).enum.bind fun p =>
        [(sub ++ "/" ++ stripDotSlash p.2.default, groupToRadiance g p.1 false),
         (sub ++ "/" ++ stripDotSlash p.2.direct, groupToRadiance g p.1 true)]) ++
      [(sub ++ "/" ++ stripDotSlash ("./" ++ g.identifier ++ "..black.rad"),
        groupBlkToRadiance g)]) := by
  have hne : statesJsonList g ≠ [] := by
    unfold statesJsonList
    intro hc
    exact h (by simpa using congrArg List.length hc)
  obtain ⟨lastRec, hlast⟩ := Option.ne_none_iff_exists'.1
    (mt List.getLast?_eq_none_iff.1 hne)
  have hblack : lastRec.black = "./" ++ g.identifier ++ "..black.rad" := by
    obtain ⟨i, _, hi⟩ := List.mem_map.1
      (show lastRec ∈ (List.range g.states.length).map (stateRecOf g) from
        List.mem_of_getLast?_eq_some hlast)
    rw [← hi]
    rfl
  unfold writeDynamicSubfaceFiles
  dsimp only
  rw [hlast]
  dsimp only
  rw [hblack]

/-- C9: for a dynamic group with N states, the states.json entry (the records
returned by `_write_dynamic_subface_files` as annotated by `_write_mtx_files`)
has exactly N records; record i keeps the default/direct/black names of state
i (so record 0 is the group's default state, and record ordering matches the
input state ordering); and both dynamic writers emit one default-mode and one
direct-mode geometry file per state index, in that same order. -/
theorem dynamic_group_state_index_spec (sub : String) (g : DynGroup)
    (h : g.states.length ≠ 0) :
    ∃ st_d files, writeDynamicSubfaceFiles sub g = Except.ok (st_d, files) ∧
      st_d.length = g.states.length ∧
      (writeMtxFiles sub g st_d).1.length = g.states.length ∧
      (∀ i rec, (writeMtxFiles sub g st_d).1.get? i = some rec →
        rec.default = (stateRecOf g i).default ∧
        rec.direct = (stateRecOf g i).direct ∧
        rec.black = (stateRecOf g i).black) ∧
      files = ((List.range g.states.length).bind fun i =>
        [(sub ++ "/" ++ stripDotSlash (stateRecOf g i).default,
           groupToRadiance g i false),
         (sub ++ "/" ++ stripDotSlash (stateRecOf g i).direct,
           groupToRadiance g i true)]) ++
        [(sub ++ "/" ++ stripDotSlash ("./" ++ g.identifier ++ "..black.rad"),
          groupBlkToRadiance g)] ∧
      (writeDynamicShadeFiles sub g).1.length = g.states.length ∧
      (writeDynamicShadeFiles sub g).2 = (List.range g.states.length).bind fun i =>
        [(sub ++ "/" ++ stripDotSlash (stateRecOf g i).default,
           groupToRadiance g i false),
         (sub ++ "/" ++ stripDotSlash (stateRecOf g i).direct,
           groupToRadiance g i true)] := by
  have hbind : ((statesJsonList g).enum.bind fun p =>
      [(sub ++ "/" ++ stripDotSlash p.2.default, groupToRadiance g p.1 false),
       (sub ++ "/" ++ stripDotSlash p.2.direct, groupToRadiance g p.1 true)]) =
      (List.range g.states.length).bind fun i =>
        [(sub ++ "/" ++ stripDotSlash (stateRecOf g i).default,
           groupToRadiance g i false),
         (sub ++ "/" ++ stripDotSlash (stateRecOf g i).direct,
           groupToRadiance g i true)] := by
    rw [statesJsonList_enum, map_bind_eq]
  refine ⟨statesJsonList g, _, writeDynamicSubfaceFiles_ok sub g h,
    by simp [statesJsonList], ?_, ?_, by rw [hbind], by simp [writeDynamicShadeFiles, statesJsonList], ?_⟩
  · rw [writeMtxFiles_states,
      (mtxLoop_spec sub g (mtxsDefaultAll g) (statesJsonList g) 0).1]
    simp [statesJsonList]
  · intro i rec hget
    obtain ⟨hi, hrec⟩ := writeMtx_get sub g hget
    subst hrec
    exact mtxAnnotate_preserves g (mtxsDefaultAll g) i (stateRecOf g i)
  · show (writeDynamicShadeFiles sub g).2 = _
    unfold writeDynamicShadeFiles
    dsimp only
    rw [hbind]

/-- Witness for C9: a concrete two-state group. -/
theorem dynamic_group_state_index_spec_witness :
    let g : DynGroup := ⟨"g1", false, [], [⟨none⟩, ⟨some "x.xml"⟩]⟩
    ∃ st_d files, writeDynamicSubfaceFiles "aperture_group" g = Except.ok (st_d, files) ∧
      st_d.length = g.states.length ∧
      (writeMtxFiles "aperture_group" g st_d).1.length = g.states.length ∧
      (∀ i rec, (writeMtxFiles "aperture_group" g st_d).1.get? i = some rec →
        rec.default = (stateRecOf g i).default ∧
        rec.direct = (stateRecOf g i).direct ∧
        rec.black = (stateRecOf g i).black) ∧
      files = ((List.range g.states.length).bind fun i =>
        [("aperture_group" ++ "/" ++ stripDotSlash (stateRecOf g i).default,
           groupToRadiance g i false),
         ("aperture_group" ++ "/" ++ stripDotSlash (stateRecOf g i).direct,
           groupToRadiance g i true)]) ++
        [("aperture_group" ++ "/" ++ stripDotSlash ("./" ++ g.identifier ++ "..black.rad"),
          groupBlkToRadiance g)] ∧
      (writeDynamicShadeFiles "aperture_group" g).1.length = g.states.length ∧
      (writeDynamicShadeFiles "aperture_group" g).2 =
        (List.range g.states.length).bind fun i =>
          [("aperture_group" ++ "/" ++ stripDotSlash (stateRecOf g i).default,
             groupToRadiance g i false),
           ("aperture_group" ++ "/" ++ stripDotSlash (stateRecOf g i).direct,
             groupToRadiance g i true)] := by
  intro g
  exact dynamic_group_state_index_spec "aperture_group" g (by decide)

/-! ## The folder orchestrator model_to_rad_folder (writer.py 233-356)

Category sub-folder names (`aperture`, `scene`, `aperture_group`,
`scene_dynamic_outdoor`, `scene_dynamic_indoor`, `bsdf`, `grid`, `view`) stand
for the paths resolved by the external `ModelFolder` naming-convention
collaborator; the unconditional root-layout creation done by
`ModelFolder.write` is that collaborator's behaviour and outside this model.
The duplicate-display-name validation for grids and views is an external
model accessor and is modelled as passing. -/

/-- The collections `model_to_rad_folder` reads from the model's radiance
properties: each static category split into default-blk and overridden-blk
lists (`subfaces_by_blk` / `faces_by_blk` / `shades_by_blk`), the dynamic
groups, the BSDF modifiers, and the sensor-grid and view identifiers. -/
structure HBModel where
  aps : List GeoObj
  aps_blk : List GeoObj
  faces : List GeoObj
  faces_blk : List GeoObj
  shades : List GeoObj
  shades_blk : List GeoObj
  dynamic_subface_groups : List DynGroup
  dynamic_shade_groups : List DynGroup
  bsdf_modifiers : List Ref
  sensor_grids : List String
  views : List String

/-- The outcome of a compilation run: the category sub-directories created
(in creation order), the files written (name and content, in write order),
the final modifier store, and the error that aborted compilation, if any. -/
structure FolderResult where
  dirs : List String
  files : List (String × String)
  store : Store
  error : Option String

/-- The message of the `NotImplementedError` raised for indoor dynamic
sub-face groups (writer.py 293-294). -/
def indoorErrMsg : String :=
  "NotImplementedError: Dynamic interior apertures are not currently supported by Model.to.rad_folder."

/-- The dynamic sub-face phase loop (writer.py 289-298): reject an indoor
group with the unsupported-configuration error, otherwise write the group's
state files and matrix files and record its annotated states under its
identifier.  Returns the accumulated dictionary, the write trace, and the
error that stopped the loop, if any. -/
def dynSubfaceLoop : List DynGroup → List (String × List StateRec) →
    List (String × String) →
    List (String × List StateRec) × List (String × String) × Option String
  | [], ext_dict, files => (ext_dict, files, none)
  | g :: rest, ext_dict, files =>
    if g.is_indoor then (ext_dict, files, some indoorErrMsg)
    else
      match writeDynamicSubfaceFiles "aperture_group" g with
      | .error e => (ext_dict, files, some e)
      | .ok (st_d, gfiles) =>
        let p := writeMtxFiles "aperture_group" g st_d
        dynSubfaceLoop rest (ext_dict ++ [(g.identifier, p.1)])
          (files ++ gfiles ++ p.2)

/-- Text of one states.json record; stand-in for its JSON rendering. -/
def stateRecText (r : StateRec) : String :=
  r.default ++ " " ++ r.direct ++ " " ++ r.black ++ " " ++
    r.tmtx.getD "" ++ " " ++ r.vmtx.getD "" ++ " " ++ r.dmtx.getD ""

/-- Stand-in for `json.dump` of a states dictionary: a deterministic
serialisation of the ordered group entries (the exact JSON surface syntax is
outside the modelled scope). -/
def encodeStatesJson (d : List (String × List StateRec)) : String :=
  String.intercalate "|" (d.map fun p =>
    p.1 ++ "=" ++ String.intercalate "," (p.2.map stateRecText))

/-- writer.py `_write_dynamic_json`: write states.json into the sub-folder
unless the dictionary is empty. -/
def writeDynamicJson (sub_folder : String)
    (json_dict : List (String × List StateRec)) : List (String × String) :=
  if json_dict ≠ [] then
    [(sub_folder ++ "/" ++ "states.json", encodeStatesJson json_dict)]
  else []

/-- The dynamic shade phase loop (writer.py 310-319): indoor groups go to the
indoor destination (creating it on first use, tracked by the final Bool),
outdoor groups to the outdoor destination. -/
def dynShadeLoop : List DynGroup → List (String × List StateRec) →
    List (String × List StateRec) → List (String × String) → Bool →
    List (String × List StateRec) × List (String × List StateRec) ×
      List (String × String) × Bool
  | [], out_dict, in_dict, files, indoor_created =>
    (out_dict, in_dict, files, indoor_created)
  | g :: rest, out_dict, in_dict, files, indoor_created =>
    if g.is_indoor then
      let p := writeDynamicShadeFiles "scene_dynamic_indoor" g
      dynShadeLoop rest out_dict (in_dict ++ [(g.identifier, p.1)])
        (files ++ p.2) true
    else
      let p := writeDynamicShadeFiles "scene_dynamic_outdoor" g
      dynShadeLoop rest (out_dict ++ [(g.identifier, p.1)]) in_dict
        (files ++ p.2) indoor_created

/-- Static aperture phase of `model_to_rad_folder` (writer.py 262-267):
collect modifiers with blk always forced and write the aperture files. -/
def staticPhase1 (σ : Store) (m : HBModel) : List (String × String) × Store :=
  let ca := collectModifiers σ m.aps m.aps_blk true
  writeStaticFiles ca.2 "aperture" "aperture" m.aps m.aps_blk
    ca.1.1 ca.1.2.1 ca.1.2.2.1 ca.1.2.2.2 false

/-- Static envelope-face phase (writer.py 269-274), with punched vertices. -/
def staticPhase2 (σ : Store) (m : HBModel) : List (String × String) × Store :=
  let cf := collectModifiers σ m.faces m.faces_blk false
  writeStaticFiles cf.2 "scene" "envelope" m.faces m.faces_blk
    cf.1.1 cf.1.2.1 cf.1.2.2.1 cf.1.2.2.2 true

/-- Static shade phase (writer.py 276-281). -/
def staticPhase3 (σ : Store) (m : HBModel) : List (String × String) × Store :=
  let cs := collectModifiers σ m.shades m.shades_blk false
  writeStaticFiles cs.2 "scene" "shades" m.shades m.shades_blk
    cs.1.1 cs.1.2.1 cs.1.2.2.1 cs.1.2.2.2 false

/-- The three static phases of `model_to_rad_folder` in sequence, threading
the modifier store. -/
def staticPhases (σ : Store) (m : HBModel) : List (String × String) × Store :=
  let fa := staticPhase1 σ m
  let ff := staticPhase2 fa.2 m
  let fs := staticPhase3 ff.2 m
  (fa.1 ++ ff.1 ++ fs.1, fs.2)

/-- writer.py `model_to_rad_folder`: run the static phases, the dynamic
sub-face phase (aborting on an indoor group), the dynamic shade phase, the
BSDF resource copies, and the grid and view descriptors, creating each
category sub-directory only when its phase runs. -/
def model_to_rad_folder (σ : Store) (m : HBModel) : FolderResult :=
  let sp := staticPhases σ m
  let subDirs := if m.dynamic_subface_groups.length ≠ 0 then ["aperture_group"] else []
  let sub :=
    if m.dynamic_subface_groups.length ≠ 0 then
      let p := dynSubfaceLoop m.dynamic_subface_groups [] []
      match p.2.2 with
      | some e => (p.2.1, some e)
      | none => (p.2.1 ++ writeDynamicJson "aperture_group" p.1, none)
    else ([], none)
  match sub.2 with
  | some e => { dirs := subDirs, files := sp.1 ++ sub.1, store := sp.2, error := some e }
  | none =>
    let shadeRes :=
      if m.dynamic_shade_groups.length ≠ 0 then
        let q := dynShadeLoop m.dynamic_shade_groups [] [] [] false
        ("scene_dynamic_outdoor" ::
           (if q.2.2.2 then ["scene_dynamic_indoor"] else []),
         q.2.2.1 ++ writeDynamicJson "scene_dynamic_outdoor" q.1 ++
           (if q.2.2.2 then writeDynamicJson "scene_dynamic_indoor" q.2.1 else []))
      else ([], [])
    let bsdfRes :=
      if m.bsdf_modifiers.length ≠ 0 then
        (["bsdf"], m.bsdf_modifiers.map fun r =>
          ("bsdf" ++ "/" ++ basename ((sp.2.mem r.r).bsdf_file),
           "copy of " ++ (sp.2.mem r.r).bsdf_file))
      else ([], [])
    let gridRes :=
      if m.sensor_grids.length ≠ 0 then
        (["grid"], m.sensor_grids.bind fun gid =>
          [("grid" ++ "/" ++ gid ++ ".pts", "sensor grid " ++ gid),
           ("grid" ++ "/" ++ gid ++ ".json", "grid info " ++ gid)])
      else ([], [])
    let viewRes :=
      if m.views.length ≠ 0 then
        (["view"], m.views.bind fun vid =>
          [("view" ++ "/" ++ vid ++ ".vf", "view " ++ vid),
           ("view" ++ "/" ++ vid ++ ".json", "view info " ++ vid)])
      else ([], [])
    { dirs := subDirs ++ shadeRes.1 ++ bsdfRes.1 ++ gridRes.1 ++ viewRes.1
      files := sp.1 ++ sub.1 ++ shadeRes.2 ++ bsdfRes.2 ++ gridRes.2 ++ viewRes.2
      store := sp.2
      error := none }

/-- Counterexample to C6 as stated: a model whose only dynamic shade group is
indoor.  The outdoor dynamic-scene collection is empty, yet the outdoor
dynamic-scene sub-directory is created, because writer.py 308 prepares the
outdoor sub-folder whenever any dynamic shade group exists. -/
theorem outdoor_dir_created_without_outdoor_groups :
    ((HBModel.mk [] [] [] [] [] [] [] [⟨"sh", true, [], [⟨none⟩]⟩] [] [] []
      ).dynamic_shade_groups.filter (fun g => !g.is_indoor)).length = 0 ∧
    "scene_dynamic_outdoor" ∈
      (model_to_rad_folder ⟨0, fun _ => blackVal⟩
        (HBModel.mk [] [] [] [] [] [] [] [⟨"sh", true, [], [⟨none⟩]⟩] [] [] [])).dirs := by
  constructor
  · rfl
  · decide

/-! ## The writers never mutate pre-existing modifier objects -/

theorem processBsdfModifier_next (σ : Store) (x : Ref) :
    (processBsdfModifier σ x).2.next = σ.next + 1 := rfl

theorem processBsdfModifier_mem_of_lt (σ : Store) (x : Ref) {i : Nat}
    (hi : i < σ.next) : (processBsdfModifier σ x).2.mem i = σ.mem i := by
  have h1 : i ≠ σ.next := Nat.ne_of_lt hi
  simp [processBsdfModifier, Store.duplicate, Store.alloc, Store.setBsdfFile, h1]

theorem modStrsLoop_next_le (l : List Ref) :
    ∀ σ : Store, σ.next ≤ (modStrsLoop l σ).2.next := by
  induction l with
  | nil => intro σ; exact le_refl _
  | cons x rest ih =>
    intro σ
    by_cases hb : (σ.mem x.r).is_bsdf = true
    · simp only [modStrsLoop, hb, if_true]
      refine le_trans ?_ (ih (processBsdfModifier σ x).2)
      rw [processBsdfModifier_next]
      omega
    · simp only [modStrsLoop, hb, if_false]
      exact ih σ

theorem modStrsLoop_mem_of_lt (l : List Ref) :
    ∀ (σ : Store) (i : Nat), i < σ.next →
      (modStrsLoop l σ).2.mem i = σ.mem i := by
  induction l with
  | nil => intro σ i _; rfl
  | cons x rest ih =>
    intro σ i hi
    by_cases hb : (σ.mem x.r).is_bsdf = true
    · simp only [modStrsLoop, hb, if_true]
      rw [ih (processBsdfModifier σ x).2 i
        (by rw [processBsdfModifier_next]; omega)]
      exact processBsdfModifier_mem_of_lt σ x hi
    · simp only [modStrsLoop, hb, if_false]
      exact ih σ i hi

theorem modBlkStrsLoop_next_le (l : List Ref) :
    ∀ σ : Store, σ.next ≤ (modBlkStrsLoop l σ).2.2.next := by
  induction l with
  | nil => intro σ; exact le_refl _
  | cons x rest ih =>
    intro σ
    by_cases hb : (σ.mem x.r).is_bsdf = true
    · simp only [modBlkStrsLoop, hb, if_true]
      refine le_trans ?_ (ih (processBsdfModifier σ x).2)
      rw [processBsdfModifier_next]
      omega
    · simp only [modBlkStrsLoop, hb, if_false]
      exact ih σ

theorem modBlkStrsLoop_mem_of_lt (l : List Ref) :
    ∀ (σ : Store) (i : Nat), i < σ.next →
      (modBlkStrsLoop l σ).2.2.mem i = σ.mem i := by
  induction l with
  | nil => intro σ i _; rfl
  | cons x rest ih =>
    intro σ i hi
    by_cases hb : (σ.mem x.r).is_bsdf = true
    · simp only [modBlkStrsLoop, hb, if_true]
      rw [ih (processBsdfModifier σ x).2 i
        (by rw [processBsdfModifier_next]; omega)]
      exact processBsdfModifier_mem_of_lt σ x hi
    · simp only [modBlkStrsLoop, hb, if_false]
      exact ih σ i hi

theorem collectBlkLoop_next_le (ap : Bool) (l : List Ref) :
    ∀ σ : Store, σ.next ≤ (collectBlkLoop ap l σ).2.next := by
  induction l with
  | nil => intro σ; exact le_refl _
  | cons x rest ih =>
    intro σ
    by_cases hb : ((σ.mem x.r).opaque_flag || ap) = true
    · simp only [collectBlkLoop, hb, if_true]
      refine le_trans ?_ (ih _)
      simp [Store.alloc, Store.setIdentifier]
    · simp only [collectBlkLoop, hb, if_false]
      exact ih σ

theorem collectBlkLoop_mem_of_lt (ap : Bool) (l : List Ref) :
    ∀ (σ : Store) (i : Nat), i < σ.next →
      (collectBlkLoop ap l σ).2.mem i = σ.mem i := by
  induction l with
  | nil => intro σ i _; rfl
  | cons x rest ih =>
    intro σ i hi
    have h1 : i ≠ σ.next := Nat.ne_of_lt hi
    by_cases hb : ((σ.mem x.r).opaque_flag || ap) = true
    · simp only [collectBlkLoop, hb, if_true]
      rw [ih _ i (by simp [Store.alloc, Store.setIdentifier]; omega)]
      simp [Store.alloc, Store.setIdentifier, h1]
    · simp only [collectBlkLoop, hb, if_false]
      exact ih σ i hi

theorem collectModifiers_next_le (σ : Store) (geo geo_blk : List GeoObj) (ap : Bool) :
    σ.next ≤ (collectModifiers σ geo geo_blk ap).2.next := by
  unfold collectModifiers uniqueModifierBlkCombinations
  dsimp only
  exact le_trans (collectBlkLoop_next_le ap (uniqueModifiers σ geo) σ)
    (combLoop_next_le geo_blk [] [] _)

theorem collectModifiers_mem_of_lt (σ : Store) (geo geo_blk : List GeoObj)
    (ap : Bool) {i : Nat} (hi : i < σ.next) :
    (collectModifiers σ geo geo_blk ap).2.mem i = σ.mem i := by
  unfold collectModifiers uniqueModifierBlkCombinations
  dsimp only
  rw [combLoop_mem_of_lt geo_blk [] [] _ i
    (lt_of_lt_of_le hi (collectBlkLoop_next_le ap (uniqueModifiers σ geo) σ))]
  exact collectBlkLoop_mem_of_lt ap (uniqueModifiers σ geo) σ i hi

theorem writeStaticFiles_next_le (σ : Store) (sub fid : String)
    (geo geo_blk : List GeoObj) (mods mods_blk : List Ref)
    (combs : List (String × Ref × Ref)) (names : List String) (pv : Bool) :
    σ.next ≤ (writeStaticFiles σ sub fid geo geo_blk mods mods_blk combs names pv).2.next := by
  unfold writeStaticFiles
  by_cases h : geo.length ≠ 0 ∨ geo_blk.length ≠ 0
  · rw [if_pos h]
    exact le_trans (modStrsLoop_next_le mods σ)
      (modBlkStrsLoop_next_le mods_blk _)
  · rw [if_neg h]

theorem writeStaticFiles_mem_of_lt (σ : Store) (sub fid : String)
    (geo geo_blk : List GeoObj) (mods mods_blk : List Ref)
    (combs : List (String × Ref × Ref)) (names : List String) (pv : Bool)
    {i : Nat} (hi : i < σ.next) :
    (writeStaticFiles σ sub fid geo geo_blk mods mods_blk combs names pv).2.mem i =
      σ.mem i := by
  unfold writeStaticFiles
  by_cases h : geo.length ≠ 0 ∨ geo_blk.length ≠ 0
  · rw [if_pos h]
    dsimp only
    rw [modBlkStrsLoop_mem_of_lt mods_blk _ i
      (lt_of_lt_of_le hi (modStrsLoop_next_le mods σ))]
    exact modStrsLoop_mem_of_lt mods σ i hi
  · rw [if_neg h]

theorem staticPhase1_next_le (σ : Store) (m : HBModel) :
    σ.next ≤ (staticPhase1 σ m).2.next := by
  unfold staticPhase1
  dsimp only
  exact le_trans (collectModifiers_next_le σ m.aps m.aps_blk true)
    (writeStaticFiles_next_le _ _ _ _ _ _ _ _ _ _)

theorem staticPhase2_next_le (σ : Store) (m : HBModel) :
    σ.next ≤ (staticPhase2 σ m).2.next := by
  unfold staticPhase2
  dsimp only
  exact le_trans (collectModifiers_next_le σ m.faces m.faces_blk false)
    (writeStaticFiles_next_le _ _ _ _ _ _ _ _ _ _)

theorem staticPhase3_next_le (σ : Store) (m : HBModel) :
    σ.next ≤ (staticPhase3 σ m).2.next := by
  unfold staticPhase3
  dsimp only
  exact le_trans (collectModifiers_next_le σ m.shades m.shades_blk false)
    (writeStaticFiles_next_le _ _ _ _ _ _ _ _ _ _)

theorem staticPhase1_mem_of_lt (σ : Store) (m : HBModel) {i : Nat}
    (hi : i < σ.next) : (staticPhase1 σ m).2.mem i = σ.mem i := by
  unfold staticPhase1
  dsimp only
  rw [writeStaticFiles_mem_of_lt _ _ _ _ _ _ _ _ _ _
    (lt_of_lt_of_le hi (collectModifiers_next_le σ m.aps m.aps_blk true))]
  exact collectModifiers_mem_of_lt σ m.aps m.aps_blk true hi

theorem staticPhase2_mem_of_lt (σ : Store) (m : HBModel) {i : Nat}
    (hi : i < σ.next) : (staticPhase2 σ m).2.mem i = σ.mem i := by
  unfold staticPhase2
  dsimp only
  rw [writeStaticFiles_mem_of_lt _ _ _ _ _ _ _ _ _ _
    (lt_of_lt_of_le hi (collectModifiers_next_le σ m.faces m.faces_blk false))]
  exact collectModifiers_mem_of_lt σ m.faces m.faces_blk false hi

theorem staticPhase3_mem_of_lt (σ : Store) (m : HBModel) {i : Nat}
    (hi : i < σ.next) : (staticPhase3 σ m).2.mem i = σ.mem i := by
  unfold staticPhase3
  dsimp only
  rw [writeStaticFiles_mem_of_lt _ _ _ _ _ _ _ _ _ _
    (lt_of_lt_of_le hi (collectModifiers_next_le σ m.shades m.shades_blk false))]
  exact collectModifiers_mem_of_lt σ m.shades m.shades_blk false hi

theorem staticPhases_mem_of_lt (σ : Store) (m : HBModel) {i : Nat}
    (hi : i < σ.next) : (staticPhases σ m).2.mem i = σ.mem i := by
  unfold staticPhases
  dsimp only
  rw [staticPhase3_mem_of_lt _ m
    (lt_of_lt_of_le hi (le_trans (staticPhase1_next_le σ m)
      (staticPhase2_next_le _ m))),
    staticPhase2_mem_of_lt _ m (lt_of_lt_of_le hi (staticPhase1_next_le σ m)),
    staticPhase1_mem_of_lt σ m hi]

theorem model_to_rad_folder_store (σ : Store) (m : HBModel) :
    (model_to_rad_folder σ m).store = (staticPhases σ m).2 := by
  unfold model_to_rad_folder
  dsimp only
  by_cases h : m.dynamic_subface_groups.length ≠ 0
  · rw [if_pos h, if_pos h]
    cases (dynSubfaceLoop m.dynamic_subface_groups [] []).2.2 <;> rfl
  · rw [if_neg h, if_neg h]

/-- C8: no writer operation mutates the caller's model.  Every modifier
renaming and BSDF path rewrite acts on a `duplicate`, so after the whole
compilation the identifier and `bsdf_file` (indeed the entire value) of every
modifier object owned by the source model — every reference live in the store
before compilation — are unchanged. -/
theorem model_to_rad_folder_no_mutation (σ : Store) (m : HBModel) (r : Ref)
    (h : r.r < σ.next) :
    ((model_to_rad_folder σ m).store.mem r.r).identifier = (σ.mem r.r).identifier ∧
    ((model_to_rad_folder σ m).store.mem r.r).bsdf_file = (σ.mem r.r).bsdf_file := by
  rw [model_to_rad_folder_store, staticPhases_mem_of_lt σ m h]
  exact ⟨rfl, rfl⟩

/-- Witness for C8: a concrete one-modifier model, with a BSDF face, leaves
the source modifier's identifier and bsdf file unchanged. -/
theorem model_to_rad_folder_no_mutation_witness :
    let v : ModVal := ⟨"glass_mod", true, "data/clear.xml", false, "bsdf"⟩
    let σ : Store := ⟨1, fun _ => v⟩
    let obj : GeoObj := ⟨"f1", [0], [0], ⟨0⟩, ⟨0⟩⟩
    let m : HBModel :=
      HBModel.mk [] [] [obj] [obj] [] [] [] [] [⟨0⟩] [] []
    ((model_to_rad_folder σ m).store.mem 0).identifier = "glass_mod" ∧
    ((model_to_rad_folder σ m).store.mem 0).bsdf_file = "data/clear.xml" := by
  intro v σ obj m
  exact model_to_rad_folder_no_mutation σ m ⟨0⟩ (by decide)

/-! ## The indoor dynamic sub-face abort (writer.py 287-299) -/

/-- The write trace one non-indoor dynamic sub-face group contributes: its
per-state and black files followed by its matrix files (nothing when the
writer fails). -/
def dynSubfaceGroupFiles (g : DynGroup) : List (String × String) :=
  match writeDynamicSubfaceFiles "aperture_group" g with
  | .error _ => []
  | .ok (st_d, gfiles) => gfiles ++ (writeMtxFiles "aperture_group" g st_d).2

theorem dynSubfaceLoop_abort (g : DynGroup) (l₂ : List DynGroup)
    (hind : g.is_indoor = true) :
    ∀ l₁ : List DynGroup, (∀ g' ∈ l₁, g'.is_indoor = false) →
      (∀ g' ∈ l₁, g'.states.length ≠ 0) →
      ∀ (ext : List (String × List StateRec)) (files : List (String × String)),
        dynSubfaceLoop (l₁ ++ g :: l₂) ext files =
          (ext ++ l₁.map (fun g' => (g'.identifier,
             (writeMtxFiles "aperture_group" g' (statesJsonList g')).1)),
           files ++ l₁.bind dynSubfaceGroupFiles, some indoorErrMsg) := by
  intro l₁
  induction l₁ with
  | nil =>
    intro _ _ ext files
    simp [dynSubfaceLoop, hind]
  | cons h1 rest ih =>
    intro hout hst ext files
    have ho : h1.is_indoor = false := hout h1 (List.mem_cons_self _ _)
    have hs : h1.states.length ≠ 0 := hst h1 (List.mem_cons_self _ _)
    have hok := writeDynamicSubfaceFiles_ok "aperture_group" h1 hs
    have hfiles : dynSubfaceGroupFiles h1 =
        (((statesJsonList h1).enum.bind fun p =>
          [("aperture_group" ++ "/" ++ stripDotSlash p.2.default,
             groupToRadiance h1 p.1 false),
           ("aperture_group" ++ "/" ++ stripDotSlash p.2.direct,
             groupToRadiance h1 p.1 true)]) ++
          [("aperture_group" ++ "/" ++
             stripDotSlash ("./" ++ h1.identifier ++ "..black.rad"),
            groupBlkToRadiance h1)]) ++
          (writeMtxFiles "aperture_group" h1 (statesJsonList h1)).2 := by
      unfold dynSubfaceGroupFiles
      rw [hok]
    have hstep : dynSubfaceLoop ((h1 :: rest) ++ g :: l₂) ext files =
        dynSubfaceLoop (rest ++ g :: l₂)
          (ext ++ [(h1.identifier,
            (writeMtxFiles "aperture_group" h1 (statesJsonList h1)).1)])
          (files ++ dynSubfaceGroupFiles h1) := by
      rw [List.cons_append]
      simp only [dynSubfaceLoop, ho, Bool.false_eq_true, if_false]
      rw [hok]
      dsimp only
      rw [hfiles]
      simp [List.append_assoc]
    rw [hstep, ih (fun g' hg => hout g' (List.mem_cons_of_mem _ hg))
      (fun g' hg => hst g' (List.mem_cons_of_mem _ hg))]
    simp [List.append_assoc]

/-- C5: a model with an indoor dynamic sub-face group raises the designated
unsupported-configuration error; the write trace stops at the files of the
well-formed outdoor groups iterated before it — no file of the indoor group
(nor of any later group, nor the states.json index) is written, so the
compilation aborts rather than skipping the group. -/
theorem model_to_rad_folder_indoor_aborts (σ : Store) (m : HBModel)
    (l₁ l₂ : List DynGroup) (g : DynGroup)
    (hsplit : m.dynamic_subface_groups = l₁ ++ g :: l₂)
    (hind : g.is_indoor = true)
    (hout : ∀ g' ∈ l₁, g'.is_indoor = false)
    (hst : ∀ g' ∈ l₁, g'.states.length ≠ 0) :
    (model_to_rad_folder σ m).error = some indoorErrMsg ∧
    (model_to_rad_folder σ m).files =
      (staticPhases σ m).1 ++ l₁.bind dynSubfaceGroupFiles := by
  have hloop := dynSubfaceLoop_abort g l₂ hind l₁ hout hst [] []
  unfold model_to_rad_folder
  dsimp only
  rw [hsplit]
  have hne : (l₁ ++ g :: l₂).length ≠ 0 := by simp
  rw [if_pos hne, if_pos hne, hloop]
  exact ⟨rfl, rfl⟩

/-- Witness for C5: a model whose single dynamic sub-face group is indoor
aborts with the error before writing any dynamic file. -/
theorem model_to_rad_folder_indoor_aborts_witness :
    let σ : Store := ⟨0, fun _ => blackVal⟩
    let gi : DynGroup := ⟨"gi", true, [], [⟨none⟩]⟩
    let m : HBModel := HBModel.mk [] [] [] [] [] [] [gi] [] [] [] []
    (model_to_rad_folder σ m).error = some indoorErrMsg ∧
    (model_to_rad_folder σ m).files =
      (staticPhases σ m).1 ++ List.bind [] dynSubfaceGroupFiles := by
  intro σ gi m
  exact model_to_rad_folder_indoor_aborts σ m [] [] gi rfl rfl
    (by intro g' hg; simp at hg) (by intro g' hg; simp at hg)

/-! ## Empty phases create no category artifacts (writer.py 302-322, 480-502) -/

theorem dynSubfaceGroupFiles_eq (g : DynGroup) (hs : g.states.length ≠ 0) :
    dynSubfaceGroupFiles g =
      (((statesJsonList g).enum.bind fun p =>
        [("aperture_group" ++ "/" ++ stripDotSlash p.2.default,
           groupToRadiance g p.1 false),
         ("aperture_group" ++ "/" ++ stripDotSlash p.2.direct,
           groupToRadiance g p.1 true)]) ++
        [("aperture_group" ++ "/" ++
           stripDotSlash ("./" ++ g.identifier ++ "..black.rad"),
          groupBlkToRadiance g)]) ++
      (writeMtxFiles "aperture_group" g (statesJsonList g)).2 := by
  unfold dynSubfaceGroupFiles
  rw [writeDynamicSubfaceFiles_ok "aperture_group" g hs]

theorem dynSubfaceLoop_ok :
    ∀ l : List DynGroup, (∀ g ∈ l, g.is_indoor = false ∧ g.states.length ≠ 0) →
      ∀ (ext : List (String × List StateRec)) (files : List (String × String)),
        dynSubfaceLoop l ext files =
          (ext ++ l.map (fun g => (g.identifier,
             (writeMtxFiles "aperture_group" g (statesJsonList g)).1)),
           files ++ l.bind dynSubfaceGroupFiles, none) := by
  intro l
  induction l with
  | nil => intro _ ext files; simp [dynSubfaceLoop]
  | cons h1 rest ih =>
    intro hns ext files
    have ho := (hns h1 (List.mem_cons_self _ _)).1
    have hs := (hns h1 (List.mem_cons_self _ _)).2
    have hok := writeDynamicSubfaceFiles_ok "aperture_group" h1 hs
    have hstep : dynSubfaceLoop (h1 :: rest) ext files =
        dynSubfaceLoop rest
          (ext ++ [(h1.identifier,
            (writeMtxFiles "aperture_group" h1 (statesJsonList h1)).1)])
          (files ++ dynSubfaceGroupFiles h1) := by
      simp only [dynSubfaceLoop, ho, Bool.false_eq_true, if_false]
      rw [hok]
      dsimp only
      rw [dynSubfaceGroupFiles_eq h1 hs]
      simp [List.append_assoc]
    rw [hstep, ih (fun g' hg => hns g' (List.mem_cons_of_mem _ hg))]
    simp [List.append_assoc]

theorem dynShadeLoop_flag :
    ∀ (l : List DynGroup) out_dict in_dict files flag,
      (dynShadeLoop l out_dict in_dict files flag).2.2.2 =
        (flag || l.any (fun g => g.is_indoor)) := by
  intro l
  induction l with
  | nil => intro out_dict in_dict files flag; simp [dynShadeLoop]
  | cons g rest ih =>
    intro out_dict in_dict files flag
    by_cases hg : g.is_indoor = true
    · simp only [dynShadeLoop, hg, if_true]
      rw [ih]
      simp [hg]
    · rw [Bool.not_eq_true] at hg
      simp only [dynShadeLoop, hg, Bool.false_eq_true, if_false]
      rw [ih]
      simp [hg]

theorem mem_ite_nil {α : Type} (c : Prop) [Decidable c] (x : α) (l : List α) :
    (x ∈ if c then l else []) ↔ c ∧ x ∈ l := by
  by_cases h : c <;> simp [h]

theorem fst_ite_pair {α β : Type} (c : Prop) [Decidable c] (x y : α × β) :
    (if c then x else y).1 = if c then x.1 else y.1 := by
  by_cases h : c <;> simp [h]

theorem model_to_rad_folder_ok_dirs (σ : Store) (m : HBModel)
    (hns : ∀ g ∈ m.dynamic_subface_groups,
      g.is_indoor = false ∧ g.states.length ≠ 0) :
    (model_to_rad_folder σ m).error = none ∧
    (model_to_rad_folder σ m).dirs =
      (if m.dynamic_subface_groups.length ≠ 0 then ["aperture_group"] else []) ++
      (if m.dynamic_shade_groups.length ≠ 0 then
        "scene_dynamic_outdoor" ::
          (if m.dynamic_shade_groups.any (fun g => g.is_indoor) then
            ["scene_dynamic_indoor"] else [])
       else []) ++
      (if m.bsdf_modifiers.length ≠ 0 then ["bsdf"] else []) ++
      (if m.sensor_grids.length ≠ 0 then ["grid"] else []) ++
      (if m.views.length ≠ 0 then ["view"] else []) := by
  unfold model_to_rad_folder
  dsimp only
  by_cases hq : m.dynamic_subface_groups.length ≠ 0
  · rw [if_pos hq, if_pos hq, dynSubfaceLoop_ok m.dynamic_subface_groups hns [] []]
    dsimp only
    refine ⟨rfl, ?_⟩
    by_cases hsh : m.dynamic_shade_groups.length ≠ 0
    · rw [if_pos hsh, if_pos hsh, dynShadeLoop_flag]
      simp [fst_ite_pair]
    · rw [if_neg hsh, if_neg hsh]
      simp [fst_ite_pair]
  · rw [if_neg hq, if_neg hq]
    dsimp only
    refine ⟨rfl, ?_⟩
    by_cases hsh : m.dynamic_shade_groups.length ≠ 0
    · rw [if_pos hsh, if_pos hsh, dynShadeLoop_flag]
      simp [fst_ite_pair]
    · rw [if_neg hsh, if_neg hsh]
      simp [fst_ite_pair]

/-- C6 amended: every phase of `model_to_rad_folder` whose input collection is
empty creates no file and no directory for its category — with one exception
the code exhibits: the outdoor dynamic-scene sub-directory is created whenever
the dynamic shade collection is non-empty, even when all its groups are indoor
(so the outdoor collection is empty); the indoor sub-directory is created
exactly when an indoor group exists.  Static categories write no zero-length
artifacts, and an all-empty model produces no category directory and only the
(empty-category-skipping) static files. -/
theorem model_to_rad_folder_empty_phase_spec (σ : Store) (m : HBModel)
    (hns : ∀ g ∈ m.dynamic_subface_groups,
      g.is_indoor = false ∧ g.states.length ≠ 0) :
    (model_to_rad_folder σ m).error = none ∧
    ("aperture_group" ∈ (model_to_rad_folder σ m).dirs ↔
      m.dynamic_subface_groups ≠ []) ∧
    ("scene_dynamic_outdoor" ∈ (model_to_rad_folder σ m).dirs ↔
      m.dynamic_shade_groups ≠ []) ∧
    ("scene_dynamic_indoor" ∈ (model_to_rad_folder σ m).dirs ↔
      ∃ g ∈ m.dynamic_shade_groups, g.is_indoor = true) ∧
    ("bsdf" ∈ (model_to_rad_folder σ m).dirs ↔ m.bsdf_modifiers ≠ []) ∧
    ("grid" ∈ (model_to_rad_folder σ m).dirs ↔ m.sensor_grids ≠ []) ∧
    ("view" ∈ (model_to_rad_folder σ m).dirs ↔ m.views ≠ []) ∧
    (m.dynamic_subface_groups = [] → m.dynamic_shade_groups = [] →
      m.bsdf_modifiers = [] → m.sensor_grids = [] → m.views = [] →
      (model_to_rad_folder σ m).dirs = [] ∧
      (model_to_rad_folder σ m).files = (staticPhases σ m).1) ∧
    (∀ (σ2 : Store) (sub fid : String) (mods mods_blk : List Ref)
      (combs : List (String × Ref × Ref)) (names : List String) (pv : Bool),
      (writeStaticFiles σ2 sub fid [] [] mods mods_blk combs names pv).1 = []) := by
  obtain ⟨herr, hdirs⟩ := model_to_rad_folder_ok_dirs σ m hns
  refine ⟨herr, ?_, ?_, ?_, ?_, ?_, ?_, ?_, ?_⟩
  · rw [hdirs]
    simp [mem_ite_nil, List.length_eq_zero]
  · rw [hdirs]
    simp [mem_ite_nil, List.length_eq_zero]
  · rw [hdirs]
    simp only [List.mem_append, mem_ite_nil, List.mem_cons, List.mem_singleton]
    constructor
    · rintro h
      simp at h
      rcases h with ⟨_, hany⟩
      exact hany
    · intro hex
      have hany := (List.any_eq_true).2 hex
      have hne : m.dynamic_shade_groups.length ≠ 0 := by
        obtain ⟨g, hg, _⟩ := hex
        intro hc
        rw [List.length_eq_zero] at hc
        rw [hc] at hg
        simp at hg
      simp [hne, hany]
  · rw [hdirs]
    simp [mem_ite_nil, List.length_eq_zero]
  · rw [hdirs]
    simp [mem_ite_nil, List.length_eq_zero]
  · rw [hdirs]
    simp [mem_ite_nil, List.length_eq_zero]
  · intro e1 e2 e3 e4 e5
    constructor
    · rw [hdirs, e1, e2, e3, e4, e5]
      simp
    · unfold model_to_rad_folder
      dsimp only
      rw [e1, e2, e3, e4, e5]
      simp
  · intro σ2 sub fid mods mods_blk combs names pv
    unfold writeStaticFiles
    simp

/-- Witness for C6 (amended): a model with one outdoor dynamic shade group
and nothing else creates the outdoor dynamic-scene directory, no indoor
directory, and no aperture-group, bsdf, grid or view directory. -/
theorem model_to_rad_folder_empty_phase_spec_witness :
    let σ : Store := ⟨0, fun _ => blackVal⟩
    let m : HBModel :=
      HBModel.mk [] [] [] [] [] [] [] [⟨"sh", false, [], [⟨none⟩]⟩] [] [] []
    ("scene_dynamic_outdoor" ∈ (model_to_rad_folder σ m).dirs ↔
      m.dynamic_shade_groups ≠ []) ∧
    ("scene_dynamic_indoor" ∈ (model_to_rad_folder σ m).dirs ↔
      ∃ g ∈ m.dynamic_shade_groups, g.is_indoor = true) ∧
    ("aperture_group" ∈ (model_to_rad_folder σ m).dirs ↔
      m.dynamic_subface_groups ≠ []) := by
  intro σ m
  obtain ⟨_, h1, h2, h3, _⟩ :=
    model_to_rad_folder_empty_phase_spec σ m (by intro g hg; simp at hg)
  exact ⟨h2, h3, h1⟩

end HBRad
